import Mathlib

/-!
A shallow embedding of the knowledge-graph engine of the
Regulation-Aware RAG system (files `graph_ingestion.py`,
`graph_retrieval.py`, `graph_query_system.py`), together with proofs
about its merge, persistence, retrieval and traversal operations.

Modelling conventions:
* Python dicts become insertion-ordered association lists; updating an
  existing key keeps its position (`setP`), a new key is appended.
* Python sets of strings become insertion-ordered duplicate-free lists
  (`PVal.strSet`); adding an element appends it only when absent
  (`setAdd`).  Python set equality is element equality, which the
  round-trip theorems compare with `sameElems`.
* Python code that can raise (`set.add` on a list value, `list.append`
  on a set value, `str.lower` on a non-string, `pickle.load` on a
  corrupt file) is embedded in `Except String`.
-/

namespace RegRAG

/-- A property value stored on a node or an edge: the program only ever
stores strings, sets of strings and lists of strings. -/
inductive PVal where
  | str (s : String)
  | strSet (elems : List String)
  | strList (elems : List String)
deriving DecidableEq

/-- Python truthiness of a property value: empty strings and empty
collections are falsy. -/
def PVal.isFalsy : PVal → Bool
  | .str s => s == ""
  | .strSet l => l.isEmpty
  | .strList l => l.isEmpty

/-- A Python dict with string keys and `PVal` values, as an
insertion-ordered association list. -/
abbrev Props := List (String × PVal)

/-- Dict lookup: first (and in a real dict, only) binding of the key. -/
def getP (p : Props) (k : String) : Option PVal :=
  (p.find? (fun kv => kv.1 == k)).map (·.2)

/-- Dict assignment: replace the first binding of the key in place, or
append a new binding. -/
def setP : Props → String → PVal → Props
  | [], k, v => [(k, v)]
  | kv :: rest, k, v => if kv.1 == k then (k, v) :: rest else kv :: setP rest k v

/-- `s.add(x)` on a Python set modelled as an ordered duplicate-free
list: append `x` when absent. -/
def setAdd (l : List String) (x : String) : List String :=
  if l.contains x then l else l ++ [x]

/-- Two string lists carry the same element set. -/
def sameElems (a b : List String) : Bool :=
  a.all (b.contains ·) && b.all (a.contains ·)

/-- The directed property graph (`networkx.DiGraph`): nodes and edges in
insertion order, each carrying a property dict.  Edges are keyed by the
ordered pair (source, target). -/
structure Graph where
  nodes : List (String × Props)
  edges : List ((String × String) × Props)
deriving DecidableEq

def emptyGraph : Graph := ⟨[], []⟩

def hasNode (g : Graph) (id : String) : Bool :=
  g.nodes.any (fun n => n.1 == id)

def getNodeProps (g : Graph) (id : String) : Option Props :=
  (g.nodes.find? (fun n => n.1 == id)).map (·.2)

/-- Replace the property dict of the first node with the given id. -/
def setNodeList : List (String × Props) → String → Props → List (String × Props)
  | [], _, _ => []
  | n :: rest, id, p => if n.1 == id then (id, p) :: rest else n :: setNodeList rest id p

def setNodeProps (g : Graph) (id : String) (p : Props) : Graph :=
  { g with nodes := setNodeList g.nodes id p }

def addNode (g : Graph) (id : String) (p : Props) : Graph :=
  { g with nodes := g.nodes ++ [(id, p)] }

def hasEdge (g : Graph) (s t : String) : Bool :=
  g.edges.any (fun e => e.1.1 == s && e.1.2 == t)

def getEdgeProps (g : Graph) (s t : String) : Option Props :=
  (g.edges.find? (fun e => e.1.1 == s && e.1.2 == t)).map (·.2)

def setEdgeList : List ((String × String) × Props) → String → String → Props →
    List ((String × String) × Props)
  | [], _, _, _ => []
  | e :: rest, s, t, p =>
    if e.1.1 == s && e.1.2 == t then ((s, t), p) :: rest else e :: setEdgeList rest s t p

def setEdgeProps (g : Graph) (s t : String) (p : Props) : Graph :=
  { g with edges := setEdgeList g.edges s t p }

/-- Ensure a node exists, creating it with an empty attribute dict when
missing (the implicit node creation of `networkx.DiGraph.add_edge`). -/
def ensureNode (g : Graph) (id : String) : Graph :=
  if hasNode g id then g else addNode g id []

/-- `networkx.DiGraph.add_edge(u, v, **attr)`: create the endpoint nodes
with empty attribute dicts when missing, then create the edge, or merge
the attributes into an existing edge. -/
def nxAddEdge (g : Graph) (s t : String) (p : Props) : Graph :=
  if hasEdge (ensureNode (ensureNode g s) t) s t then
    setEdgeProps (ensureNode (ensureNode g s) t) s t
      (p.foldl (fun acc kv => setP acc kv.1 kv.2)
        ((getEdgeProps (ensureNode (ensureNode g s) t) s t).getD []))
  else
    { ensureNode (ensureNode g s) t with
      edges := (ensureNode (ensureNode g s) t).edges ++ [((s, t), p)] }

/-- An extracted entity: the dict `{"id", "type", "name", "properties"}`.
`id = ""` models a missing or falsy id (such entities are skipped);
`type`/`name` are `none` when the key is absent. -/
structure Entity where
  id : String
  type : Option String
  name : Option String
  properties : Props
deriving DecidableEq

/-- An extracted relationship: the dict
`{"source", "target", "type", "properties"}`.  An empty source or
target models a missing or falsy endpoint (such relationships are
skipped); `type = none` models a missing type (defaulted to
RELATES_TO). -/
structure Rel where
  source : String
  target : String
  type : Option String
  properties : Props
deriving DecidableEq

/-- The property-copy loop of the existing-node branch: each supplied
property is written only when the key is absent or its current value is
falsy (first-write-wins for populated values). -/
def mergeEntityProps (props : Props) (eprops : Props) : Props :=
  eprops.foldl
    (fun acc kv =>
      match getP acc kv.1 with
      | none => setP acc kv.1 kv.2
      | some v => if v.isFalsy then setP acc kv.1 kv.2 else acc)
    props

/-- The `source_files` update of the existing-node branch: default the
key to an empty set, wrap a bare string, then `add` the source file —
which raises `AttributeError` on a list value. -/
def sfAdded (props1 : Props) (sourceFile : String) : Except String Props :=
  match (getP props1 "source_files").getD (.strSet []) with
  | .str s => .ok (setP props1 "source_files" (.strSet (setAdd [s] sourceFile)))
  | .strSet l => .ok (setP props1 "source_files" (.strSet (setAdd l sourceFile)))
  | .strList _ => .error "AttributeError"

/-- The whole property update applied to an existing node. -/
def nodeUpd (props : Props) (e : Entity) (sourceFile : String) : Except String Props :=
  sfAdded (mergeEntityProps props e.properties) sourceFile

/-- The property dict of a freshly created node: the entity's
properties plus `source_files = {source_file}`,
`entity_type = type or "Unknown"` and `entity_name = name or id`. -/
def nodeCreate (e : Entity) (sourceFile : String) : Props :=
  setP (setP (setP e.properties
    "source_files" (.strSet [sourceFile]))
    "entity_type" (.str (e.type.getD "Unknown")))
    "entity_name" (.str (e.name.getD e.id))

/-- The entity half of `GraphIngestion.add_to_graph`, for one entity:
merge into an existing node or create a fresh one; a falsy id is
skipped. -/
def addEntity (g : Graph) (e : Entity) (sourceFile : String) : Except String Graph :=
  if e.id == "" then .ok g
  else
    match getNodeProps g e.id with
    | some props =>
      match nodeUpd props e sourceFile with
      | .ok p1 => .ok (setNodeProps g e.id p1)
      | .error msg => .error msg
    | none => .ok (addNode g e.id (nodeCreate e sourceFile))

def addEntities : Graph → List Entity → String → Except String Graph
  | g, [], _ => .ok g
  | g, e :: es, f =>
    match addEntity g e f with
    | .ok g' => addEntities g' es f
    | .error msg => .error msg

/-- The final value of an existing edge's `relationship_types` after one
relationship merge: the stored value is defaulted to `[]`, a bare
string is wrapped into a one-element list, and the new type is appended
when absent.  `list.append` on a set value raises `AttributeError`,
except when the type is already a member (the append never runs). -/
def rtUpdated (props : Props) (relType : String) : Except String PVal :=
  match (getP props "relationship_types").getD (.strList []) with
  | .str s => .ok (.strList (setAdd [s] relType))
  | .strList l => .ok (.strList (setAdd l relType))
  | .strSet l => if l.contains relType then .ok (.strSet l) else .error "AttributeError"

/-- The property dict of a freshly created edge: the relationship's
properties plus `relationship_type` and `source_files = {source_file}`
(and no `relationship_types` key). -/
def newEdgeProps (r : Rel) (sourceFile : String) : Props :=
  setP (setP r.properties
    "relationship_type" (.str (r.type.getD "RELATES_TO")))
    "source_files" (.strSet [sourceFile])

/-- The relationship half of `GraphIngestion.add_to_graph`, for one
relationship: update `relationship_types` on an existing edge, or create
a new edge; a falsy source or target skips the relationship. -/
def addRel (g : Graph) (r : Rel) (sourceFile : String) : Except String Graph :=
  if r.source == "" || r.target == "" then .ok g
  else
    match getEdgeProps g r.source r.target with
    | some props =>
      match rtUpdated props (r.type.getD "RELATES_TO") with
      | .ok v => .ok (setEdgeProps g r.source r.target (setP props "relationship_types" v))
      | .error msg => .error msg
    | none => .ok (nxAddEdge g r.source r.target (newEdgeProps r sourceFile))

def addRels : Graph → List Rel → String → Except String Graph
  | g, [], _ => .ok g
  | g, r :: rs, f =>
    match addRel g r f with
    | .ok g' => addRels g' rs f
    | .error msg => .error msg

/-- `GraphIngestion.add_to_graph(entities, relationships, source_file)`:
merge all entities as nodes, then all relationships as edges. -/
def add_to_graph (g : Graph) (entities : List Entity) (relationships : List Rel)
    (sourceFile : String) : Except String Graph :=
  match addEntities g entities sourceFile with
  | .ok g' => addRels g' relationships sourceFile
  | .error msg => .error msg

/-! ## Persistence (`save_graph` / `load_graph`) -/

/-- The save-side conversion of one dict: a set-valued `source_files`
becomes a list. -/
def convSFToList (p : Props) : Props :=
  match getP p "source_files" with
  | some (.strSet l) => setP p "source_files" (.strList l)
  | _ => p

/-- The save-side conversion of one edge dict: additionally, a set-valued
`relationship_types` becomes a list. -/
def convRTToList (p : Props) : Props :=
  match getP p "relationship_types" with
  | some (.strSet l) => setP p "relationship_types" (.strList l)
  | _ => p

/-- `GraphIngestion.save_graph`: the graph value pickled to disk — a copy
of the in-memory graph with set-valued `source_files` (nodes and edges)
and `relationship_types` (edges) converted to lists.  (The JSON mirror
is write-only and never read back, so it is not modelled.) -/
def save_graph (g : Graph) : Graph :=
  { nodes := g.nodes.map (fun n => (n.1, convSFToList n.2)),
    edges := g.edges.map (fun e => (e.1, convRTToList (convSFToList e.2))) }

/-- The load-side conversion of one dict: a list-valued `source_files`
becomes a set.  (`load_graph` applies this to nodes and edges; no other
key — in particular not `relationship_types` — is converted back.) -/
def convSFToSet (p : Props) : Props :=
  match getP p "source_files" with
  | some (.strList l) => setP p "source_files" (.strSet l)
  | _ => p

def loadConv (g : Graph) : Graph :=
  { nodes := g.nodes.map (fun n => (n.1, convSFToSet n.2)),
    edges := g.edges.map (fun e => (e.1, convSFToSet e.2)) }

/-- The on-disk snapshot state: `none` = no snapshot file exists,
`some none` = the file exists but unpickling fails (corrupt),
`some (some g)` = the file unpickles to the graph `g`. -/
abbrev Snapshot := Option (Option Graph)

/-- `GraphIngestion.load_graph`: returns `False` leaving the in-memory
graph unchanged when no snapshot file exists; unpickles and converts
list-valued `source_files` back to sets otherwise.  There is no
exception handler, so a corrupt snapshot raises to the caller. -/
def GraphIngestion.load_graph (store : Snapshot) (current : Graph) :
    Except String (Graph × Bool) :=
  match store with
  | none => .ok (current, false)
  | some none => .error "UnpicklingError"
  | some (some g) => .ok (loadConv g, true)

/-- `GraphRetrieval.load_graph`: same conversion, but a missing file
yields an empty graph and any unpickling failure is caught and also
yields an empty graph. -/
def GraphRetrieval.load_graph (store : Snapshot) : Graph :=
  match store with
  | none => emptyGraph
  | some none => emptyGraph
  | some (some g) => loadConv g

/-! ## Retrieval (`graph_retrieval.py`) -/

/-- Python `str()` of a property value.  For strings this is the string
itself; for sets and lists the program only ever feeds the result into
display text that no claim inspects, so their rendering is modelled
canonically as the comma-joined elements (Python's `str()` punctuates
differently, which no theorem below depends on). -/
def pvalToStr : PVal → String
  | .str s => s
  | .strSet l => String.intercalate ", " l
  | .strList l => String.intercalate ", " l

/-- Python `str.lower()`, modelled over the character list (ASCII
case-folding via `Char.toLower`). -/
def strLower (s : String) : String := String.mk (s.toList.map Char.toLower)

/-- Python's substring test `q in s`. -/
def isSubstrOf (q s : String) : Bool :=
  s.toList.tails.any (fun t => q.toList.isPrefixOf t)

/-- The output-side conversion applied to property dicts returned by
retrieval methods: drop the excluded keys and turn set values into
lists. -/
def pvalOut : PVal → PVal
  | .strSet l => .strList l
  | v => v

def convPropsOut (p : Props) (excl : List String) : Props :=
  (p.filter (fun kv => !excl.contains kv.1)).map (fun kv => (kv.1, pvalOut kv.2))

/-- One match returned by `find_related_entities`: the dict
`{"id", "type", "name", "properties"}`. -/
structure MatchResult where
  id : String
  type : PVal
  name : PVal
  properties : Props
deriving DecidableEq

/-- The per-node match test of `find_related_entities`: the lower-cased
query must be a substring of the node's name, id, description, or of
some string-valued property.  `.lower()` on a non-string `entity_name`
or `description` raises `AttributeError`. -/
def nodeMatches (queryLower : String) (id : String) (props : Props) : Except String Bool :=
  match (getP props "entity_name").getD (.str "") with
  | .str namev =>
    match (getP props "description").getD (.str "") with
    | .str desc =>
      .ok (isSubstrOf queryLower (strLower namev) || isSubstrOf queryLower (strLower id)
        || isSubstrOf queryLower (strLower desc)
        || props.any (fun kv => match kv.2 with
            | .str v => isSubstrOf queryLower (strLower v)
            | _ => false))
    | _ => .error "AttributeError"
  | _ => .error "AttributeError"

def matchEntry (id : String) (props : Props) : MatchResult :=
  { id := id,
    type := (getP props "entity_type").getD (.str "Unknown"),
    name := (getP props "entity_name").getD (.str id),
    properties := convPropsOut props ["entity_type", "entity_name"] }

/-- The scan of `find_related_entities` over the node list in insertion
order, before the `max_results` cap. -/
def collectMatches (queryLower : String) : List (String × Props) → Except String (List MatchResult)
  | [] => .ok []
  | (id, props) :: rest =>
    match nodeMatches queryLower id props with
    | .error msg => .error msg
    | .ok b =>
      match collectMatches queryLower rest with
      | .error msg => .error msg
      | .ok ms => .ok (if b then matchEntry id props :: ms else ms)

/-- `GraphRetrieval.find_related_entities(entity_query, max_results)`. -/
def find_related_entities (g : Graph) (entityQuery : String) (maxResults : Nat) :
    Except String (List MatchResult) :=
  match collectMatches (strLower entityQuery) g.nodes with
  | .ok ms => .ok (ms.take maxResults)
  | .error msg => .error msg

/-- The filter test `if not relationship_types or rel_type in
relationship_types` (an empty filter list is falsy and passes
everything; a non-string stored type is never equal to a filter
string). -/
def relPass (filter : Option (List String)) (rt : PVal) : Bool :=
  match filter with
  | none => true
  | some [] => true
  | some l => match rt with
    | .str s => l.contains s
    | _ => false

/-- `DiGraph.successors`: out-neighbours in edge insertion order.  (In a
graph built by the program edge keys are unique, so each neighbour is
listed once, as in networkx.) -/
def successors (g : Graph) (id : String) : List String :=
  (g.edges.filter (fun e => e.1.1 == id)).map (fun e => e.1.2)

/-- `DiGraph.predecessors`: in-neighbours in edge insertion order. -/
def predecessors (g : Graph) (id : String) : List String :=
  (g.edges.filter (fun e => e.1.2 == id)).map (fun e => e.1.1)

structure OutRel where
  target : String
  relationship : PVal
  target_name : PVal
  target_type : PVal
  properties : Props
deriving DecidableEq

structure InRel where
  source : String
  relationship : PVal
  source_name : PVal
  source_type : PVal
  properties : Props
deriving DecidableEq

structure EntityRels where
  outgoing : List OutRel
  incoming : List InRel
deriving DecidableEq

/-- `GraphRetrieval.get_entity_relationships(entity_id,
relationship_types)`: a missing node yields the empty structured result;
otherwise both edge directions are listed, filtered by relationship
type. -/
def get_entity_relationships (g : Graph) (entityId : String)
    (filter : Option (List String)) : EntityRels :=
  if ¬ hasNode g entityId then ⟨[], []⟩
  else
    { outgoing := (successors g entityId).filterMap (fun t =>
        let edata := (getEdgeProps g entityId t).getD []
        let rt := (getP edata "relationship_type").getD (.str "RELATES_TO")
        if relPass filter rt then
          let tprops := (getNodeProps g t).getD []
          some { target := t, relationship := rt,
                 target_name := (getP tprops "entity_name").getD (.str t),
                 target_type := (getP tprops "entity_type").getD (.str "Unknown"),
                 properties := convPropsOut edata ["relationship_type"] }
        else none),
      incoming := (predecessors g entityId).filterMap (fun s =>
        let edata := (getEdgeProps g s entityId).getD []
        let rt := (getP edata "relationship_type").getD (.str "RELATES_TO")
        if relPass filter rt then
          let sprops := (getNodeProps g s).getD []
          some { source := s, relationship := rt,
                 source_name := (getP sprops "entity_name").getD (.str s),
                 source_type := (getP sprops "entity_type").getD (.str "Unknown"),
                 properties := convPropsOut edata ["relationship_type"] }
        else none) }

/-- One entry of the `related` list built by `traverse_from_entity`. -/
structure RelatedEntry where
  entity_id : String
  entity_name : PVal
  entity_type : PVal
  relationship : PVal
  depth : Nat
  properties : Props
deriving DecidableEq

/-- The relationship type read for a neighbour: from the incoming edge
in the reverse direction, the outgoing edge otherwise, defaulted to
RELATES_TO. -/
def nbrRelType (g : Graph) (reverse : Bool) (current nbr : String) : PVal :=
  (getP ((if reverse then getEdgeProps g nbr current
    else getEdgeProps g current nbr).getD []) "relationship_type").getD (.str "RELATES_TO")

/-- The `related` entry recorded for a newly discovered neighbour;
reverse-direction discoveries tag the relationship with a `reverse_`
prefix. -/
def nbrEntry (g : Graph) (reverse : Bool) (current nbr : String) (curDepth : Nat) :
    RelatedEntry :=
  { entity_id := nbr,
    entity_name := (getP ((getNodeProps g nbr).getD []) "entity_name").getD (.str nbr),
    entity_type := (getP ((getNodeProps g nbr).getD []) "entity_type").getD (.str "Unknown"),
    relationship := if reverse then
        .str ("reverse_" ++ pvalToStr (nbrRelType g reverse current nbr))
      else nbrRelType g reverse current nbr,
    depth := curDepth + 1,
    properties := convPropsOut ((getNodeProps g nbr).getD []) ["entity_type", "entity_name"] }

/-- Processing one neighbour inside the traversal loop: skip it when
already visited or filtered out, otherwise record it, mark it visited
and enqueue it one level deeper. -/
def visitNbr (g : Graph) (filter : Option (List String)) (reverse : Bool)
    (current : String) (curDepth : Nat)
    (st : List String × List RelatedEntry × List (String × Nat)) (nbr : String) :
    List String × List RelatedEntry × List (String × Nat) :=
  if st.1.contains nbr then st
  else if relPass filter (nbrRelType g reverse current nbr) then
    (st.1 ++ [nbr], st.2.1 ++ [nbrEntry g reverse current nbr curDepth],
     st.2.2 ++ [(nbr, curDepth + 1)])
  else st

/-- The `while queue:` loop of `traverse_from_entity`.  The loop always
terminates because every enqueued node was freshly added to the visited
set, and visited nodes are drawn from the start node and edge endpoints;
the fuel passed by `traverse_from_entity` (`2 * |edges| + 2`) exceeds
the maximal possible number of iterations, so the fuel-exhaustion branch
is never taken on the arguments the program supplies. -/
def bfsLoop (g : Graph) (filter : Option (List String)) (depth : Nat) :
    Nat → List (String × Nat) → List String → List RelatedEntry → List RelatedEntry
  | 0, _, _, rel => rel
  | _ + 1, [], _, rel => rel
  | fuel + 1, (c, cd) :: qs, vis, rel =>
    if depth ≤ cd then bfsLoop g filter depth fuel qs vis rel
    else
      let st1 := (successors g c).foldl (visitNbr g filter false c cd) (vis, rel, [])
      let st2 := (predecessors g c).foldl (visitNbr g filter true c cd) st1
      bfsLoop g filter depth fuel (qs ++ st2.2.2) st2.1 st2.2.1

/-- The result dict of `traverse_from_entity`; the `entity_name` key is
only present in the found case. -/
structure TraverseResult where
  entity : String
  entity_name : Option PVal
  found : Bool
  related : List RelatedEntry
deriving DecidableEq

/-- `GraphRetrieval.traverse_from_entity(entity_id, relationship_types,
depth)`: breadth-first traversal over both edge directions, bounded by
`depth`, with a single shared visited set initialised to the start
node. -/
def traverse_from_entity (g : Graph) (entityId : String)
    (filter : Option (List String)) (depth : Nat) : TraverseResult :=
  if ¬ hasNode g entityId then ⟨entityId, none, false, []⟩
  else
    ⟨entityId,
     some ((getP ((getNodeProps g entityId).getD []) "entity_name").getD (.str entityId)),
     true,
     bfsLoop g filter depth (2 * g.edges.length + 2) [(entityId, 0)] [entityId] []⟩

/-- The fixed keyword vocabulary of `_extract_concepts`, in source
order.  (The source stores it as a Python set whose iteration order is
unspecified; no claim below depends on concept order.) -/
def keywords : List String :=
  ["theft", "steal", "mobile", "phone", "property",
   "accident", "accidental", "intentional", "intent",
   "crime", "criminal", "illegal", "illegally",
   "require", "required", "must", "should",
   "approval", "consent", "permission",
   "data", "storage", "external", "server",
   "dpo", "data protection", "encryption"]

/-- Order-preserving deduplication, modelling `list(set(concepts))`
(whose order Python leaves unspecified). -/
def dedupFirst (l : List String) : List String :=
  l.foldl (fun acc x => if acc.contains x then acc else acc ++ [x]) []

/-- Python `str.split()` on the lower-cased question: whitespace-
separated words, empty pieces dropped (modelled for the space
separator, the only whitespace the claims exercise). -/
def splitWordsAux : List Char → List Char → List String
  | [], acc => if acc.isEmpty then [] else [String.mk acc]
  | c :: rest, acc =>
    if c = ' ' then (if acc.isEmpty then [] else [String.mk acc]) ++ splitWordsAux rest []
    else splitWordsAux rest (acc ++ [c])

def splitWords (s : String) : List String := splitWordsAux s.toList []

/-- `GraphRetrieval._extract_concepts(question)`: matching vocabulary
keywords plus all adjacent-word bigrams, deduplicated and capped at
10. -/
def extract_concepts (question : String) : List String :=
  let ql := strLower question
  let kws := keywords.filter (fun k => isSubstrOf k ql)
  let ws := splitWords ql
  let bigrams := (ws.zip ws.tail).map (fun ab => ab.1 ++ " " ++ ab.2)
  (dedupFirst (kws ++ bigrams)).take 10

structure RelInfo where
  entity : MatchResult
  relationships : EntityRels
  traversal : TraverseResult
deriving DecidableEq

structure QueryResult where
  question : String
  matched_entities : List MatchResult
  graph_context : String
  related_info : List RelInfo
deriving DecidableEq

/-- Deduplicate matches by id, keeping first-seen order (the
`seen_ids` loop of `query_graph`). -/
def dedupById (l : List MatchResult) : List MatchResult :=
  (l.foldl (fun acc m =>
    if acc.2.contains m.id then acc else (acc.1 ++ [m], acc.2 ++ [m.id])) ([], [])).1

/-- The per-concept matching loop of `query_graph` (`max_results=5` per
concept, results concatenated). -/
def conceptMatches (g : Graph) : List String → Except String (List MatchResult)
  | [] => .ok []
  | c :: cs =>
    match find_related_entities g c 5 with
    | .error msg => .error msg
    | .ok ms =>
      match conceptMatches g cs with
      | .error msg => .error msg
      | .ok rest => .ok (ms ++ rest)

/-- `GraphRetrieval._build_context_from_graph(related_info, question)`:
one text block per matched entity; the parts are joined with newlines,
so an empty `related_info` yields the empty string. -/
def build_context_from_graph (relatedInfo : List RelInfo) (_question : String) : String :=
  let parts := relatedInfo.flatMap (fun info =>
    let ename := pvalToStr info.entity.name
    let etype := pvalToStr info.entity.type
    let header := ["\n=== " ++ etype ++ ": " ++ ename ++ " ===\n"]
    let descr := match getP info.entity.properties "description" with
      | some d => ["Description: " ++ pvalToStr d ++ "\n"]
      | none => []
    let outs :=
      if info.relationships.outgoing.isEmpty then []
      else "Relationships (requires/contains):" ::
        (info.relationships.outgoing.take 5).map (fun r =>
          "  - " ++ ename ++ " " ++ pvalToStr r.relationship ++ " " ++ pvalToStr r.target_name)
        ++ [""]
    let ins :=
      if info.relationships.incoming.isEmpty then []
      else "Related from:" ::
        (info.relationships.incoming.take 5).map (fun r =>
          "  - " ++ pvalToStr r.source_name ++ " " ++ pvalToStr r.relationship ++ " " ++ ename)
        ++ [""]
    let trav :=
      if info.traversal.related.isEmpty then []
      else "Related entities (2-hop):" ::
        (info.traversal.related.take 5).map (fun r =>
          "  - " ++ ename ++ " → " ++ pvalToStr r.entity_name ++ " (" ++ pvalToStr r.relationship ++ ")")
        ++ [""]
    header ++ descr ++ outs ++ ins ++ trav)
  String.intercalate "\n" parts

/-- `GraphRetrieval.query_graph(question)`: extract concepts, match
entities per concept, deduplicate by id, expand the top 5 with direct
relationships and a depth-2 traversal, and render the context. -/
def query_graph (g : Graph) (question : String) : Except String QueryResult :=
  match conceptMatches g (extract_concepts question) with
  | .error msg => .error msg
  | .ok matched =>
    let uniqueEntities := dedupById matched
    let relatedInfo := (uniqueEntities.take 5).map (fun ent =>
      { entity := ent,
        relationships := get_entity_relationships g ent.id none,
        traversal := traverse_from_entity g ent.id none 2 : RelInfo })
    .ok { question := question,
          matched_entities := uniqueEntities.take 10,
          graph_context := build_context_from_graph relatedInfo question,
          related_info := relatedInfo }

/-- `GraphQuerySystem._format_graph_context(graph_context, entities,
related_info)`: the downstream wrapper that substitutes the explicit
"No relevant entities found in graph." block for an empty graph
context. -/
def GraphQuerySystem.format_graph_context (graphContext : String)
    (entities : List MatchResult) (relatedInfo : List RelInfo) : String :=
  let c1 := "KNOWLEDGE GRAPH CONTEXT:\n\n" ++
    (if graphContext.isEmpty then "No relevant entities found in graph.\n\n" else graphContext)
  let c2 :=
    if entities.isEmpty then c1
    else c1 ++ "\nRELEVANT ENTITIES FROM GRAPH:\n" ++
      String.join ((entities.take 5).map (fun e =>
        let d := match getP e.properties "description" with
          | some v => "  Description: " ++ pvalToStr v ++ "\n"
          | none => ""
        let t := match getP e.properties "text" with
          | some v => "  Text: " ++ pvalToStr v ++ "\n"
          | none => ""
        "- " ++ pvalToStr e.type ++ ": " ++ pvalToStr e.name ++ "\n" ++ d ++ t ++ "\n"))
  if relatedInfo.isEmpty then c2
  else c2 ++ "\nRELATIONSHIP CHAINS:\n" ++
    String.join ((relatedInfo.take 3).map (fun info =>
      String.join ((info.relationships.outgoing.take 3).filterMap (fun r =>
        match r.relationship with
        | .str s =>
          if ["REQUIRES", "LACKS", "IS_NOT"].contains s then
            some ("- " ++ pvalToStr info.entity.name ++ " " ++ s ++ " " ++
              pvalToStr r.target_name ++ "\n")
          else none
        | _ => none)) ++ "\n"))

/-! ## Observables used by the theorems -/

/-- The value of property `k` on node `n`, when both exist. -/
def nodeProp (g : Graph) (n k : String) : Option PVal :=
  (getNodeProps g n).bind (fun p => getP p k)

/-- The value of property `k` on edge `(s, t)`, when both exist. -/
def edgeProp (g : Graph) (s t k : String) : Option PVal :=
  (getEdgeProps g s t).bind (fun p => getP p k)

/-! ## C7 — querying an empty graph -/

theorem find_related_empty (q : String) (m : Nat) :
    find_related_entities emptyGraph q m = .ok [] := by
  show Except.ok (List.take m []) = Except.ok ([] : List MatchResult)
  rw [List.take_nil]

theorem conceptMatches_empty (cs : List String) :
    conceptMatches emptyGraph cs = .ok [] := by
  induction cs with
  | nil => rfl
  | cons c cs ih =>
    rw [conceptMatches, find_related_empty, ih]
    rfl

/-- C7 (counterexample): against the empty graph, `query_graph` returns
`matched_entities = []` together with the EMPTY STRING as context — not
a context that states no entities were found. -/
theorem C7_cex :
    (query_graph emptyGraph "is theft a crime").map
      (fun r => (r.matched_entities, r.graph_context)) = .ok ([], "") := by
  rfl

/-- C7 (amended): for every question, `query_graph` on the empty graph
returns `matched_entities = []`, an empty `related_info` and the empty
string as `graph_context`; the explicit "No relevant entities found in
graph." block is only added downstream by
`GraphQuerySystem._format_graph_context`. -/
theorem C7_amended :
    (∀ question : String,
      query_graph emptyGraph question = .ok ⟨question, [], "", []⟩) ∧
    GraphQuerySystem.format_graph_context "" [] [] =
      "KNOWLEDGE GRAPH CONTEXT:\n\nNo relevant entities found in graph.\n\n" := by
  refine ⟨fun question => ?_, rfl⟩
  rw [query_graph, conceptMatches_empty]
  rfl

/-! ## C8 — load recovery -/

/-- C8 (counterexample): `GraphIngestion.load_graph` on a corrupt
snapshot raises (`pickle.load` has no exception handler there), instead
of recovering with an empty graph. -/
theorem C8_cex :
    GraphIngestion.load_graph (some none) emptyGraph = .error "UnpicklingError" := rfl

/-- C8 (amended): `GraphRetrieval.load_graph` recovers from both a
missing and a corrupt snapshot with an empty graph and never raises;
`GraphIngestion.load_graph` returns normally (leaving the in-memory
graph unchanged) when the snapshot is missing, but raises on a corrupt
snapshot. -/
theorem C8_amended :
    GraphRetrieval.load_graph none = emptyGraph ∧
    GraphRetrieval.load_graph (some none) = emptyGraph ∧
    ∀ g : Graph, GraphIngestion.load_graph none g = .ok (g, false) :=
  ⟨rfl, rfl, fun _ => rfl⟩

/-! ## Counterexample graphs and batches -/

/-- A relationship `a --T--> b` with no extra properties. -/
def relT : Rel := ⟨"a", "b", some "T", []⟩

/-- C1 (counterexample): merging the batch `([], [a --T--> b], "f")`
into the empty graph twice does not reproduce the edge properties of
merging it once: the second call adds a `relationship_types = ["T"]`
key that the first call never writes. -/
theorem C1_cex :
    ((add_to_graph emptyGraph [] [relT] "f").bind (fun g1 =>
      (add_to_graph g1 [] [relT] "f").map (fun g2 =>
        (edgeProp g1 "a" "b" "relationship_types",
         edgeProp g2 "a" "b" "relationship_types"))))
      = .ok (none, some (.strList ["T"])) := by
  rfl

/-- C3 (counterexample): the edge created for a relationship whose
ordered pair was absent carries no `relationship_types` key at all (the
claim says it carries `relationship_types = {type}`). -/
theorem C3_cex :
    (add_to_graph emptyGraph [] [relT] "f").map
      (fun g => edgeProp g "a" "b" "relationship_types") = .ok none := by
  rfl

/-- A graph with an existing `a → b` edge whose `source_files` is
`{"f1"}`. -/
def gC4 : Graph := ⟨[("a", []), ("b", [])], [(("a", "b"), [("source_files", .strSet ["f1"])])]⟩

/-- C4 (counterexample): merging a relationship onto an existing edge
does NOT add the new source file to the edge's `source_files` — the set
stays `{"f1"}` although the merge used source file `"f2"`. -/
theorem C4_cex :
    (add_to_graph gC4 [] [relT] "f2").map
      (fun g => edgeProp g "a" "b" "source_files") = .ok (some (.strSet ["f1"])) := by
  rfl

/-- A graph with a set-valued edge `relationship_types`. -/
def gC2 : Graph :=
  ⟨[("a", [])], [(("a", "b"), [("relationship_types", .strSet ["A"])])]⟩

/-- C2 (counterexample): reloading the snapshot does not convert
list-valued `relationship_types` back into sets — a set-valued
`relationship_types` is saved as a list and comes back as a list, so
`load(save(g))` is not exactly `g`. -/
theorem C2_cex :
    edgeProp (loadConv (save_graph gC2)) "a" "b" "relationship_types"
        = some (.strList ["A"]) ∧
      edgeProp gC2 "a" "b" "relationship_types" = some (.strSet ["A"]) :=
  ⟨rfl, rfl⟩

/-- Eleven nodes that all match the query `"x"` as a substring of their
id; the node literally named `"x"` is inserted last. -/
def gC6 : Graph :=
  ⟨[("x0", []), ("x1", []), ("x2", []), ("x3", []), ("x4", []),
    ("x5", []), ("x6", []), ("x7", []), ("x8", []), ("x9", []), ("x", [])], []⟩

/-- C6 (counterexample): the node whose id exactly equals the query
`"x"` is missing from `find_related_entities` under the default
`max_results = 10`, because ten earlier-inserted substring matches fill
the cap. -/
theorem C6_cex :
    hasNode gC6 "x" = true ∧
    (find_related_entities gC6 "x" 10).map (fun ms => ms.map (fun m => m.id)) =
      .ok ["x0", "x1", "x2", "x3", "x4", "x5", "x6", "x7", "x8", "x9"] :=
  ⟨rfl, rfl⟩

/-! ## Basic lemmas about dict lookup and assignment -/

theorem getP_nil (k : String) : getP [] k = none := rfl

theorem getP_cons_self {a : String} {b : PVal} {rest : Props} {k : String} (h : a = k) :
    getP ((a, b) :: rest) k = some b := by
  unfold getP
  rw [List.find?_cons_of_pos _ (by simp [h])]
  rfl

theorem getP_cons_ne {a : String} {b : PVal} {rest : Props} {k : String} (h : a ≠ k) :
    getP ((a, b) :: rest) k = getP rest k := by
  unfold getP
  rw [List.find?_cons_of_neg _ (by simp [h])]

theorem setP_cons_self {a : String} {b : PVal} {rest : Props} {k : String} (v : PVal)
    (h : a = k) : setP ((a, b) :: rest) k v = (k, v) :: rest := by
  rw [setP, if_pos (by simp [h])]

theorem setP_cons_ne {a : String} {b : PVal} {rest : Props} {k : String} (v : PVal)
    (h : a ≠ k) : setP ((a, b) :: rest) k v = (a, b) :: setP rest k v := by
  rw [setP, if_neg (by simp [h])]

theorem getP_setP_self (p : Props) (k : String) (v : PVal) :
    getP (setP p k v) k = some v := by
  induction p with
  | nil => rw [setP, getP_cons_self rfl]
  | cons kv rest ih =>
    obtain ⟨a, b⟩ := kv
    by_cases h : a = k
    · rw [setP_cons_self v h, getP_cons_self rfl]
    · rw [setP_cons_ne v h, getP_cons_ne h]
      exact ih

theorem getP_setP_ne (p : Props) {k k' : String} (v : PVal) (h : k' ≠ k) :
    getP (setP p k' v) k = getP p k := by
  induction p with
  | nil => rw [setP, getP_cons_ne h, getP_nil]
  | cons kv rest ih =>
    obtain ⟨a, b⟩ := kv
    by_cases hk : a = k'
    · rw [setP_cons_self v hk, getP_cons_ne h, getP_cons_ne (by rw [hk]; exact h)]
    · rw [setP_cons_ne v hk]
      by_cases hk2 : a = k
      · rw [getP_cons_self hk2, getP_cons_self hk2]
      · rw [getP_cons_ne hk2, getP_cons_ne hk2]
        exact ih

theorem setP_getP_self (p : Props) (k : String) (v : PVal) (h : getP p k = some v) :
    setP p k v = p := by
  induction p with
  | nil => rw [getP_nil] at h; cases h
  | cons kv rest ih =>
    obtain ⟨a, b⟩ := kv
    by_cases hk : a = k
    · rw [getP_cons_self hk] at h
      injection h with h2
      subst h2
      rw [setP_cons_self b hk, hk]
    · rw [getP_cons_ne hk] at h
      rw [setP_cons_ne v hk, ih h]

theorem setP_setP (p : Props) (k : String) (v w : PVal) :
    setP (setP p k v) k w = setP p k w := by
  induction p with
  | nil =>
    show setP [(k, v)] k w = [(k, w)]
    rw [setP_cons_self w rfl]
  | cons kv rest ih =>
    obtain ⟨a, b⟩ := kv
    by_cases hk : a = k
    · rw [setP_cons_self v hk, setP_cons_self w rfl, setP_cons_self w hk]
    · rw [setP_cons_ne v hk, setP_cons_ne w hk, setP_cons_ne w hk, ih]

theorem sameElems_refl (l : List String) : sameElems l l = true := by
  simp [sameElems, List.all_eq_true]

/-! ## C2 — save/load round trip -/

/-- Equality of property values up to set contents: identical values, or
a set and a list (in any combination) carrying the same elements. -/
def pvSameElems (v w : PVal) : Bool :=
  v == w ||
    match v, w with
    | .strSet a, .strSet b => sameElems a b
    | .strSet a, .strList b => sameElems a b
    | .strList a, .strSet b => sameElems a b
    | _, _ => false

def optSame (a b : Option PVal) : Bool :=
  match a, b with
  | none, none => true
  | some v, some w => pvSameElems v w
  | _, _ => false

/-- How one property key must survive the save/load round trip: the
reserved set-valued keys are compared as sets, every other key must come
back exactly. -/
def rtRel (k : String) (a b : Option PVal) : Bool :=
  if k = "source_files" ∨ k = "relationship_types" then optSame a b else a == b

theorem pvSameElems_refl (v : PVal) : pvSameElems v v = true := by
  simp [pvSameElems]

theorem optSame_refl (a : Option PVal) : optSame a a = true := by
  cases a <;> simp [optSame, pvSameElems_refl]

theorem rtRel_refl (k : String) (a : Option PVal) : rtRel k a a = true := by
  by_cases h : k = "source_files" ∨ k = "relationship_types" <;>
    simp [rtRel, h, optSame_refl]

theorem getP_convSFToList (p : Props) {k : String} (h : k ≠ "source_files") :
    getP (convSFToList p) k = getP p k := by
  unfold convSFToList
  cases hs : getP p "source_files" with
  | none => rfl
  | some v =>
    cases v with
    | str s => rfl
    | strSet l => exact getP_setP_ne p _ (Ne.symm h)
    | strList l => rfl

theorem getP_convRTToList (p : Props) {k : String} (h : k ≠ "relationship_types") :
    getP (convRTToList p) k = getP p k := by
  unfold convRTToList
  cases hs : getP p "relationship_types" with
  | none => rfl
  | some v =>
    cases v with
    | str s => rfl
    | strSet l => exact getP_setP_ne p _ (Ne.symm h)
    | strList l => rfl

theorem getP_convSFToSet (p : Props) {k : String} (h : k ≠ "source_files") :
    getP (convSFToSet p) k = getP p k := by
  unfold convSFToSet
  cases hs : getP p "source_files" with
  | none => rfl
  | some v =>
    cases v with
    | str s => rfl
    | strSet l => rfl
    | strList l => exact getP_setP_ne p _ (Ne.symm h)

theorem getP_convSFToList_sf (p : Props) :
    getP (convSFToList p) "source_files" =
      match getP p "source_files" with
      | some (.strSet l) => some (.strList l)
      | o => o := by
  unfold convSFToList
  cases hs : getP p "source_files" with
  | none => simp [hs]
  | some v =>
    cases v with
    | str s => simp [hs]
    | strSet l => simp [getP_setP_self]
    | strList l => simp [hs]

theorem getP_convRTToList_rt (p : Props) :
    getP (convRTToList p) "relationship_types" =
      match getP p "relationship_types" with
      | some (.strSet l) => some (.strList l)
      | o => o := by
  unfold convRTToList
  cases hs : getP p "relationship_types" with
  | none => simp [hs]
  | some v =>
    cases v with
    | str s => simp [hs]
    | strSet l => simp [getP_setP_self]
    | strList l => simp [hs]

theorem getP_convSFToSet_sf (p : Props) :
    getP (convSFToSet p) "source_files" =
      match getP p "source_files" with
      | some (.strList l) => some (.strSet l)
      | o => o := by
  unfold convSFToSet
  cases hs : getP p "source_files" with
  | none => simp [hs]
  | some v =>
    cases v with
    | str s => simp [hs]
    | strSet l => simp [hs]
    | strList l => simp [getP_setP_self]

/-- The node-side round trip, key by key. -/
theorem nodeRT_key (p : Props) (k : String) :
    rtRel k (getP p k) (getP (convSFToSet (convSFToList p)) k) = true := by
  by_cases hs : k = "source_files"
  · subst hs
    rw [getP_convSFToSet_sf, getP_convSFToList_sf]
    cases h : getP p "source_files" with
    | none => simp [rtRel, optSame]
    | some v =>
      cases v with
      | str s => simp [rtRel, optSame, pvSameElems_refl]
      | strSet l => simp [rtRel, optSame, pvSameElems_refl]
      | strList l => simp [rtRel, optSame, pvSameElems, sameElems_refl]
  · rw [getP_convSFToSet (convSFToList p) hs, getP_convSFToList p hs]
    exact rtRel_refl k _

/-- The edge-side round trip, key by key. -/
theorem edgeRT_key (p : Props) (k : String) :
    rtRel k (getP p k) (getP (convSFToSet (convRTToList (convSFToList p))) k) = true := by
  by_cases hs : k = "source_files"
  · subst hs
    rw [getP_convSFToSet_sf]
    rw [getP_convRTToList (convSFToList p) (by decide)]
    rw [getP_convSFToList_sf]
    cases h : getP p "source_files" with
    | none => simp [rtRel, optSame]
    | some v =>
      cases v with
      | str s => simp [rtRel, optSame, pvSameElems_refl]
      | strSet l => simp [rtRel, optSame, pvSameElems_refl]
      | strList l => simp [rtRel, optSame, pvSameElems, sameElems_refl]
  · by_cases hr : k = "relationship_types"
    · subst hr
      rw [getP_convSFToSet _ (by decide), getP_convRTToList_rt,
        getP_convSFToList p (by decide)]
      cases h : getP p "relationship_types" with
      | none => simp [rtRel, optSame]
      | some v =>
        cases v with
        | str s => simp [rtRel, optSame, pvSameElems_refl]
        | strSet l => simp [rtRel, optSame, pvSameElems, sameElems_refl]
        | strList l => simp [rtRel, optSame, pvSameElems_refl]
    · rw [getP_convSFToSet _ hs, getP_convRTToList _ hr, getP_convSFToList p hs]
      exact rtRel_refl k _

theorem map_fst_keyed {a b : Type} (l : List (a × b)) (f : b → b) :
    (l.map (fun x => (x.1, f x.2))).map Prod.fst = l.map Prod.fst := by
  induction l with
  | nil => rfl
  | cons x rest ih => simp [ih]

theorem getNodeProps_map (ns : List (String × Props)) (f : Props → Props) (n : String) :
    ((ns.map (fun x => (x.1, f x.2))).find? (fun x => x.1 == n)).map (·.2) =
      (((ns.find? (fun x => x.1 == n)).map (·.2)).map f : Option Props) := by
  induction ns with
  | nil => rfl
  | cons x rest ih =>
    by_cases h : x.1 = n
    · simp [List.find?_cons_of_pos, h]
    · rw [List.map_cons, List.find?_cons_of_neg _ (by simpa using h),
        List.find?_cons_of_neg _ (by simpa using h), ih]

theorem getEdgeProps_map (es : List ((String × String) × Props)) (f : Props → Props)
    (s t : String) :
    ((es.map (fun x => (x.1, f x.2))).find? (fun x => x.1.1 == s && x.1.2 == t)).map (·.2) =
      (((es.find? (fun x => x.1.1 == s && x.1.2 == t)).map (·.2)).map f : Option Props) := by
  induction es with
  | nil => rfl
  | cons x rest ih =>
    by_cases h : (x.1.1 == s && x.1.2 == t) = true
    · simp [List.find?_cons_of_pos, h]
    · simp only [List.map_cons]
      rw [List.find?_cons_of_neg _ (by simpa using h),
        List.find?_cons_of_neg _ (by simpa using h), ih]

theorem getNodeProps_loadsave (g : Graph) (n : String) :
    getNodeProps (loadConv (save_graph g)) n =
      (getNodeProps g n).map (fun p => convSFToSet (convSFToList p)) := by
  have h1 : (loadConv (save_graph g)).nodes =
      (g.nodes.map (fun x => (x.1, convSFToList x.2))).map
        (fun x => (x.1, convSFToSet x.2)) := rfl
  unfold getNodeProps
  rw [h1, getNodeProps_map (g.nodes.map (fun x => (x.1, convSFToList x.2))) convSFToSet n,
    getNodeProps_map g.nodes convSFToList n]
  cases (g.nodes.find? (fun x => x.1 == n)) <;> rfl

theorem getEdgeProps_loadsave (g : Graph) (s t : String) :
    getEdgeProps (loadConv (save_graph g)) s t =
      (getEdgeProps g s t).map (fun p => convSFToSet (convRTToList (convSFToList p))) := by
  have h1 : (loadConv (save_graph g)).edges =
      (g.edges.map (fun x => (x.1, convRTToList (convSFToList x.2)))).map
        (fun x => (x.1, convSFToSet x.2)) := rfl
  unfold getEdgeProps
  rw [h1, getEdgeProps_map (g.edges.map (fun x => (x.1, convRTToList (convSFToList x.2))))
      convSFToSet s t,
    getEdgeProps_map g.edges (fun p => convRTToList (convSFToList p)) s t]
  cases (g.edges.find? (fun x => x.1.1 == s && x.1.2 == t)) <;> rfl

/-- C2 (amended): `load(save(g))` preserves the node list, the edge
list, and every property value, where the reserved keys `source_files`
and `relationship_types` are compared as sets (`rtRel`): `load` restores
list-valued `source_files` as sets, while `relationship_types` values
are left as loaded — a set-valued one comes back as a list with the
same elements — and every other key comes back exactly. -/
theorem C2_amended (g : Graph) :
    (loadConv (save_graph g)).nodes.map Prod.fst = g.nodes.map Prod.fst ∧
    (loadConv (save_graph g)).edges.map Prod.fst = g.edges.map Prod.fst ∧
    (∀ n k, rtRel k (nodeProp g n k) (nodeProp (loadConv (save_graph g)) n k) = true) ∧
    (∀ s t k, rtRel k (edgeProp g s t k) (edgeProp (loadConv (save_graph g)) s t k) = true) := by
  refine ⟨?_, ?_, ?_, ?_⟩
  · exact (map_fst_keyed ((g.nodes.map (fun x => (x.1, convSFToList x.2)))) convSFToSet).trans
      (map_fst_keyed g.nodes convSFToList)
  · exact (map_fst_keyed ((g.edges.map (fun x => (x.1, convRTToList (convSFToList x.2)))))
      convSFToSet).trans (map_fst_keyed g.edges (fun p => convRTToList (convSFToList p)))
  · intro n k
    unfold nodeProp
    rw [getNodeProps_loadsave]
    cases getNodeProps g n with
    | none => exact rtRel_refl k none
    | some p => exact nodeRT_key p k
  · intro s t k
    unfold edgeProp
    rw [getEdgeProps_loadsave]
    cases getEdgeProps g s t with
    | none => exact rtRel_refl k none
    | some p => exact edgeRT_key p k

/-! ## Frame lemmas for the two merge phases -/

theorem addEntity_cases {g : Graph} {e : Entity} {f : String} {g' : Graph}
    (h : addEntity g e f = .ok g') :
    (e.id = "" ∧ g' = g) ∨
    (e.id ≠ "" ∧ ∃ props p1, getNodeProps g e.id = some props ∧
      nodeUpd props e f = .ok p1 ∧ g' = setNodeProps g e.id p1) ∨
    (e.id ≠ "" ∧ getNodeProps g e.id = none ∧ g' = addNode g e.id (nodeCreate e f)) := by
  unfold addEntity at h
  split at h
  · rename_i hid
    cases h
    exact Or.inl ⟨by simpa using hid, rfl⟩
  · rename_i hid
    have hid2 : e.id ≠ "" := by simpa using hid
    split at h
    · rename_i props hn
      split at h
      · rename_i p1 hu
        cases h
        exact Or.inr (Or.inl ⟨hid2, props, p1, hn, hu, rfl⟩)
      · cases h
    · rename_i hn
      cases h
      exact Or.inr (Or.inr ⟨hid2, hn, rfl⟩)

theorem addEntity_edges {g : Graph} {e : Entity} {f : String} {g' : Graph}
    (h : addEntity g e f = .ok g') : g'.edges = g.edges := by
  rcases addEntity_cases h with ⟨_, rfl⟩ | ⟨_, _, _, _, _, rfl⟩ | ⟨_, _, rfl⟩ <;> rfl

theorem addEntities_edges {es : List Entity} {g : Graph} {f : String} {g' : Graph}
    (h : addEntities g es f = .ok g') : g'.edges = g.edges := by
  induction es generalizing g with
  | nil => cases h; rfl
  | cons e es ih =>
    rw [addEntities] at h
    cases he : addEntity g e f with
    | error msg => rw [he] at h; cases h
    | ok g1 => rw [he] at h; exact (ih h).trans (addEntity_edges he)

/-- Edge lookups only read the edge list. -/
theorem getEdgeProps_mk (ns : List (String × Props)) (es : List ((String × String) × Props))
    (s t : String) :
    getEdgeProps ⟨ns, es⟩ s t = (es.find? (fun e => e.1.1 == s && e.1.2 == t)).map (·.2) := rfl

theorem hasEdge_eq_isSome (g : Graph) (s t : String) :
    hasEdge g s t = (getEdgeProps g s t).isSome := by
  unfold hasEdge getEdgeProps
  induction g.edges with
  | nil => rfl
  | cons e rest ih =>
    rw [List.any_cons, List.find?_cons]
    cases he : (e.1.1 == s && e.1.2 == t) with
    | true => rfl
    | false => simpa using ih

theorem find?_setEdgeList_self {es : List ((String × String) × Props)} {s t : String}
    (p : Props) (h : (es.find? (fun e => e.1.1 == s && e.1.2 == t)).isSome) :
    (setEdgeList es s t p).find? (fun e => e.1.1 == s && e.1.2 == t) = some ((s, t), p) := by
  induction es with
  | nil => simp at h
  | cons e rest ih =>
    rw [List.find?_cons] at h
    rw [setEdgeList]
    cases he : (e.1.1 == s && e.1.2 == t) with
    | true =>
      rw [if_pos rfl, List.find?_cons]
      have hkey : ((((s, t), p) : (String × String) × Props).1.1 == s &&
          (((s, t), p) : (String × String) × Props).1.2 == t) = true := by simp
      rw [hkey]
    | false =>
      rw [if_neg Bool.false_ne_true, List.find?_cons, he]
      rw [he] at h
      exact ih h

theorem find?_setEdgeList_ne {es : List ((String × String) × Props)} {s t s' t' : String}
    (p : Props) (h : ¬(s = s' ∧ t = t')) :
    (setEdgeList es s t p).find? (fun e => e.1.1 == s' && e.1.2 == t') =
      es.find? (fun e => e.1.1 == s' && e.1.2 == t') := by
  induction es with
  | nil => rfl
  | cons e rest ih =>
    rw [setEdgeList]
    cases he : (e.1.1 == s && e.1.2 == t) with
    | true =>
      rw [if_pos rfl]
      have hkey : (((s, t), p).1.1 == s' && ((s, t), p).1.2 == t') = false := by
        simp only [Bool.and_eq_false_iff, beq_eq_false_iff_ne]
        by_cases h1 : s = s'
        · exact Or.inr (fun h2 => h ⟨h1, h2⟩)
        · exact Or.inl h1
      have hold : (e.1.1 == s' && e.1.2 == t') = false := by
        simp only [Bool.and_eq_true, beq_iff_eq] at he
        simp only [Bool.and_eq_false_iff, beq_eq_false_iff_ne]
        by_cases h1 : e.1.1 = s'
        · exact Or.inr (fun h2 => h ⟨he.1 ▸ h1, he.2 ▸ h2⟩)
        · exact Or.inl h1
      rw [List.find?_cons, hkey, List.find?_cons, hold]
    | false =>
      rw [if_neg Bool.false_ne_true, List.find?_cons, List.find?_cons]
      cases he2 : (e.1.1 == s' && e.1.2 == t') with
      | true => rfl
      | false => exact ih

theorem getEdgeProps_setEdge_self {g : Graph} {s t : String} {P : Props} (p : Props)
    (h : getEdgeProps g s t = some P) :
    getEdgeProps (setEdgeProps g s t p) s t = some p := by
  have hsome : (g.edges.find? (fun e => e.1.1 == s && e.1.2 == t)).isSome := by
    unfold getEdgeProps at h
    cases hf : g.edges.find? (fun e => e.1.1 == s && e.1.2 == t) with
    | none => rw [hf] at h; cases h
    | some e => rfl
  show ((setEdgeList g.edges s t p).find? (fun e => e.1.1 == s && e.1.2 == t)).map (·.2) = _
  rw [find?_setEdgeList_self p hsome]
  rfl

theorem getEdgeProps_setEdge_ne {s t s' t' : String} (g : Graph) (p : Props)
    (h : ¬(s = s' ∧ t = t')) :
    getEdgeProps (setEdgeProps g s t p) s' t' = getEdgeProps g s' t' := by
  show ((setEdgeList g.edges s t p).find? (fun e => e.1.1 == s' && e.1.2 == t')).map (·.2) = _
  rw [find?_setEdgeList_ne p h]
  rfl

theorem setEdgeProps_nodes (g : Graph) (s t : String) (p : Props) :
    (setEdgeProps g s t p).nodes = g.nodes := rfl

/-- Case analysis of one relationship merge. -/
theorem addRel_cases {g : Graph} {r : Rel} {f : String} {g' : Graph}
    (h : addRel g r f = .ok g') :
    ((r.source = "" ∨ r.target = "") ∧ g' = g) ∨
    (r.source ≠ "" ∧ r.target ≠ "" ∧ ∃ P V, getEdgeProps g r.source r.target = some P ∧
      rtUpdated P (r.type.getD "RELATES_TO") = .ok V ∧
      g' = setEdgeProps g r.source r.target (setP P "relationship_types" V)) ∨
    (r.source ≠ "" ∧ r.target ≠ "" ∧ getEdgeProps g r.source r.target = none ∧
      g' = nxAddEdge g r.source r.target (newEdgeProps r f)) := by
  unfold addRel at h
  split at h
  · rename_i hor
    cases h
    refine Or.inl ⟨?_, rfl⟩
    rcases Bool.or_eq_true_iff.mp hor with h1 | h1
    · exact Or.inl (by simpa using h1)
    · exact Or.inr (by simpa using h1)
  · rename_i hor
    have hor2 : r.source ≠ "" ∧ r.target ≠ "" := by
      simp only [Bool.or_eq_true, beq_iff_eq, not_or] at hor
      exact hor
    split at h
    · rename_i P hP
      split at h
      · rename_i V hrt
        cases h
        exact Or.inr (Or.inl ⟨hor2.1, hor2.2, P, V, hP, hrt, rfl⟩)
      · cases h
    · rename_i hP
      cases h
      exact Or.inr (Or.inr ⟨hor2.1, hor2.2, hP, rfl⟩)

theorem ensureNode_edges (g : Graph) (id : String) : (ensureNode g id).edges = g.edges := by
  unfold ensureNode
  split <;> rfl

theorem hasEdge_ensureNode (g : Graph) (id : String) (s t : String) :
    hasEdge (ensureNode g id) s t = hasEdge g s t := by
  unfold hasEdge
  rw [ensureNode_edges]

theorem nxAddEdge_new {g : Graph} {s t : String} (p : Props)
    (h : hasEdge g s t = false) :
    nxAddEdge g s t p =
      { ensureNode (ensureNode g s) t with
        edges := (ensureNode (ensureNode g s) t).edges ++ [((s, t), p)] } := by
  unfold nxAddEdge
  rw [if_neg (by rw [hasEdge_ensureNode, hasEdge_ensureNode, h]; exact Bool.false_ne_true)]

theorem nxAddEdge_edges_new {g : Graph} {s t : String} (p : Props)
    (h : hasEdge g s t = false) :
    (nxAddEdge g s t p).edges = g.edges ++ [((s, t), p)] := by
  rw [nxAddEdge_new p h]
  show (ensureNode (ensureNode g s) t).edges ++ _ = _
  rw [ensureNode_edges, ensureNode_edges]

theorem find?_append_none {l1 l2 : List ((String × String) × Props)}
    {q : (String × String) × Props → Bool} (h : l1.find? q = none) :
    (l1 ++ l2).find? q = l2.find? q := by
  rw [List.find?_append, h]
  rfl

theorem find?_append_some {l1 l2 : List ((String × String) × Props)}
    {q : (String × String) × Props → Bool} {e : (String × String) × Props}
    (h : l1.find? q = some e) :
    (l1 ++ l2).find? q = some e := by
  rw [List.find?_append, h]
  rfl

theorem getEdgeProps_hasEdge_false {g : Graph} {s t : String}
    (h : getEdgeProps g s t = none) : hasEdge g s t = false := by
  rw [hasEdge_eq_isSome, h]
  rfl

/-- One relationship merge leaves the lookup of every other ordered pair
unchanged. -/
theorem addRel_frame {g : Graph} {r : Rel} {f : String} {g' : Graph} {s t : String}
    (h : addRel g r f = .ok g')
    (hne : ¬(r.source = s ∧ r.target = t)) :
    getEdgeProps g' s t = getEdgeProps g s t := by
  rcases addRel_cases h with ⟨_, rfl⟩ | ⟨_, _, P, V, hP, _, rfl⟩ | ⟨_, _, hP, rfl⟩
  · rfl
  · exact getEdgeProps_setEdge_ne g _ hne
  · have he := nxAddEdge_edges_new (newEdgeProps r f) (getEdgeProps_hasEdge_false hP)
    unfold getEdgeProps
    rw [he, List.find?_append]
    have hsingle : List.find? (fun e => e.1.1 == s && e.1.2 == t)
        [((r.source, r.target), newEdgeProps r f)] = none := by
      rw [List.find?_cons]
      have : (((r.source, r.target), newEdgeProps r f).1.1 == s &&
          ((r.source, r.target), newEdgeProps r f).1.2 == t) = false := by
        simp only [Bool.and_eq_false_iff, beq_eq_false_iff_ne]
        by_cases h1 : r.source = s
        · exact Or.inr (fun h2 => hne ⟨h1, h2⟩)
        · exact Or.inl h1
      rw [this, List.find?_nil]
    rw [hsingle]
    cases g.edges.find? (fun e => e.1.1 == s && e.1.2 == t) <;> rfl

/-- The same, as an edge-creation lemma: a relationship whose pair has
no edge yet appends exactly its new edge. -/
theorem addRel_create {g : Graph} {r : Rel} {f : String} {g' : Graph}
    (h : addRel g r f = .ok g')
    (hs : r.source ≠ "") (ht : r.target ≠ "")
    (hP : getEdgeProps g r.source r.target = none) :
    getEdgeProps g' r.source r.target = some (newEdgeProps r f) := by
  rcases addRel_cases h with ⟨hor, rfl⟩ | ⟨_, _, P, V, hP2, _, rfl⟩ | ⟨_, _, _, rfl⟩
  · rcases hor with h1 | h1
    · exact absurd h1 hs
    · exact absurd h1 ht
  · rw [hP] at hP2; cases hP2
  · have he := nxAddEdge_edges_new (newEdgeProps r f) (getEdgeProps_hasEdge_false hP)
    unfold getEdgeProps
    rw [he]
    rw [find?_append_none (by
      unfold getEdgeProps at hP
      cases hf : g.edges.find? (fun e => e.1.1 == r.source && e.1.2 == r.target) with
      | none => rfl
      | some e => rw [hf] at hP; cases hP)]
    rw [List.find?_cons]
    have : (((r.source, r.target), newEdgeProps r f).1.1 == r.source &&
        ((r.source, r.target), newEdgeProps r f).1.2 == r.target) = true := by simp
    rw [this]
    rfl

theorem addRels_frame {rs : List Rel} {g : Graph} {f : String} {g' : Graph} {s t : String}
    (h : addRels g rs f = .ok g')
    (hall : ∀ r ∈ rs, ¬(r.source = s ∧ r.target = t)) :
    getEdgeProps g' s t = getEdgeProps g s t := by
  induction rs generalizing g with
  | nil => cases h; rfl
  | cons r rest ih =>
    rw [addRels] at h
    cases hr : addRel g r f with
    | error msg => rw [hr] at h; cases h
    | ok g1 =>
      rw [hr] at h
      exact (ih h (fun x hx => hall x (List.mem_cons_of_mem r hx))).trans
        (addRel_frame hr (hall r (List.mem_cons_self r rest)))

theorem getEdgeProps_congr {g g' : Graph} (h : g'.edges = g.edges) (s t : String) :
    getEdgeProps g' s t = getEdgeProps g s t := by
  unfold getEdgeProps
  rw [h]

/-- Splitting `add_to_graph` into its two phases. -/
theorem add_to_graph_split {g : Graph} {es : List Entity} {rs : List Rel} {f : String}
    {g' : Graph} (h : add_to_graph g es rs f = .ok g') :
    ∃ g1, addEntities g es f = .ok g1 ∧ addRels g1 rs f = .ok g' := by
  unfold add_to_graph at h
  cases he : addEntities g es f with
  | error msg => rw [he] at h; cases h
  | ok g1 => rw [he] at h; exact ⟨g1, rfl, h⟩

/-! ## C3 — new-edge creation shape -/

theorem addRels_unique_create {rs : List Rel} {g : Graph} {f : String} {g' : Graph} {r : Rel}
    (h : addRels g rs f = .ok g') (hmem : r ∈ rs)
    (hcount : rs.countP (fun x => x.source == r.source && x.target == r.target) = 1)
    (hs : r.source ≠ "") (ht : r.target ≠ "")
    (hnone : getEdgeProps g r.source r.target = none) :
    getEdgeProps g' r.source r.target = some (newEdgeProps r f) := by
  induction rs generalizing g with
  | nil => cases hmem
  | cons x rest ih =>
    rw [addRels] at h
    cases hx : addRel g x f with
    | error msg => rw [hx] at h; cases h
    | ok g1 =>
      rw [hx] at h
      by_cases hpair : (x.source == r.source && x.target == r.target) = true
      · have hc0 : rest.countP (fun y => y.source == r.source && y.target == r.target) = 0 := by
          rw [List.countP_cons, if_pos hpair] at hcount
          omega
        have hrx : r = x := by
          cases hmem with
          | head => rfl
          | tail _ hm =>
            exfalso
            have := (List.countP_eq_zero.mp hc0) r hm
            simp at this
        subst hrx
        have hcreate := addRel_create hx hs ht hnone
        have hrest : ∀ y ∈ rest, ¬(y.source = r.source ∧ y.target = r.target) := by
          intro y hy hyp
          have := (List.countP_eq_zero.mp hc0) y hy
          simp [hyp.1, hyp.2] at this
        rw [addRels_frame h hrest]
        exact hcreate
      · have hmem2 : r ∈ rest := by
          cases hmem with
          | head => exact absurd (by simp) hpair
          | tail _ hm => exact hm
        have hcount2 :
            rest.countP (fun y => y.source == r.source && y.target == r.target) = 1 := by
          rw [List.countP_cons, if_neg hpair] at hcount
          omega
        have hne : ¬(x.source = r.source ∧ x.target = r.target) := by
          intro hyp
          exact hpair (by simp [hyp.1, hyp.2])
        have hnone1 : getEdgeProps g1 r.source r.target = none := by
          rw [addRel_frame hx hne]
          exact hnone
        exact ih h hmem2 hcount2 hnone1

/-- C3 (amended): a relationship whose ordered pair has no edge and
occurs once in the batch creates exactly the edge `newEdgeProps r f`:
the given properties plus `relationship_type = type` and
`source_files = {source_file}` — but, contrary to the claim, NO
`relationship_types` key is written at creation. -/
theorem C3_amended {g : Graph} {es : List Entity} {rs : List Rel} {f : String} {g' : Graph}
    {r : Rel}
    (h : add_to_graph g es rs f = .ok g')
    (hmem : r ∈ rs)
    (hcount : rs.countP (fun x => x.source == r.source && x.target == r.target) = 1)
    (hs : r.source ≠ "") (ht : r.target ≠ "")
    (hnew : getEdgeProps g r.source r.target = none) :
    getEdgeProps g' r.source r.target = some (newEdgeProps r f) ∧
    getP (newEdgeProps r f) "relationship_type" = some (.str (r.type.getD "RELATES_TO")) ∧
    getP (newEdgeProps r f) "source_files" = some (.strSet [f]) ∧
    (getP r.properties "relationship_types" = none →
      getP (newEdgeProps r f) "relationship_types" = none) := by
  obtain ⟨g1, he, hr⟩ := add_to_graph_split h
  refine ⟨?_, ?_, ?_, ?_⟩
  · exact addRels_unique_create hr hmem hcount hs ht
      ((getEdgeProps_congr (addEntities_edges he) _ _).trans hnew)
  · unfold newEdgeProps
    rw [getP_setP_ne _ _ (by decide), getP_setP_self]
  · unfold newEdgeProps
    rw [getP_setP_self]
  · intro h0
    unfold newEdgeProps
    rw [getP_setP_ne _ _ (by decide), getP_setP_ne _ _ (by decide)]
    exact h0

/-- Witness for the amended C3 at a concrete input. -/
theorem C3_amended_witness :
    getEdgeProps (⟨[("a", []), ("b", [])],
        [(("a", "b"), newEdgeProps relT "f")]⟩ : Graph) "a" "b"
      = some (newEdgeProps relT "f") := by
  have h := @C3_amended emptyGraph [] [relT] "f"
    ⟨[("a", []), ("b", [])], [(("a", "b"), newEdgeProps relT "f")]⟩
    relT (by rfl) (by simp) (by rfl) (by decide) (by decide) (by rfl)
  exact h.1

/-! ## C4 — existing-edge merge -/

theorem addRels_unique_update {rs : List Rel} {g : Graph} {f : String} {g' : Graph} {r : Rel}
    {P : Props}
    (h : addRels g rs f = .ok g') (hmem : r ∈ rs)
    (hcount : rs.countP (fun x => x.source == r.source && x.target == r.target) = 1)
    (hs : r.source ≠ "") (ht : r.target ≠ "")
    (hP : getEdgeProps g r.source r.target = some P) :
    ∃ V, rtUpdated P (r.type.getD "RELATES_TO") = .ok V ∧
      getEdgeProps g' r.source r.target = some (setP P "relationship_types" V) := by
  induction rs generalizing g with
  | nil => cases hmem
  | cons x rest ih =>
    rw [addRels] at h
    cases hx : addRel g x f with
    | error msg => rw [hx] at h; cases h
    | ok g1 =>
      rw [hx] at h
      by_cases hpair : (x.source == r.source && x.target == r.target) = true
      · have hc0 : rest.countP (fun y => y.source == r.source && y.target == r.target) = 0 := by
          rw [List.countP_cons, if_pos hpair] at hcount
          omega
        have hrx : r = x := by
          cases hmem with
          | head => rfl
          | tail _ hm =>
            exfalso
            have := (List.countP_eq_zero.mp hc0) r hm
            simp at this
        subst hrx
        rcases addRel_cases hx with ⟨hor, rfl⟩ | ⟨_, _, P0, V, hP0, hV, rfl⟩ | ⟨_, _, hP0, rfl⟩
        · rcases hor with h1 | h1
          · exact absurd h1 hs
          · exact absurd h1 ht
        · rw [hP] at hP0
          injection hP0 with hP0
          subst hP0
          refine ⟨V, hV, ?_⟩
          have hrest : ∀ y ∈ rest, ¬(y.source = r.source ∧ y.target = r.target) := by
            intro y hy hyp
            have := (List.countP_eq_zero.mp hc0) y hy
            simp [hyp.1, hyp.2] at this
          rw [addRels_frame h hrest]
          exact getEdgeProps_setEdge_self _ hP
        · rw [hP] at hP0
          cases hP0
      · have hmem2 : r ∈ rest := by
          cases hmem with
          | head => exact absurd (by simp) hpair
          | tail _ hm => exact hm
        have hcount2 :
            rest.countP (fun y => y.source == r.source && y.target == r.target) = 1 := by
          rw [List.countP_cons, if_neg hpair] at hcount
          omega
        have hne : ¬(x.source = r.source ∧ x.target = r.target) := by
          intro hyp
          exact hpair (by simp [hyp.1, hyp.2])
        have hP1 : getEdgeProps g1 r.source r.target = some P := by
          rw [addRel_frame hx hne]
          exact hP
        exact ih h hmem2 hcount2 hP1

/-- C4 (amended): merging a relationship whose ordered pair already has
an edge with properties `P` only rewrites `relationship_types`
(defaulting it to `[]`, wrapping a bare string, and appending the type
when absent); every other key — including `source_files`, which the
claim says would gain the new source file — keeps its value from `P`. -/
theorem C4_amended {g : Graph} {es : List Entity} {rs : List Rel} {f : String} {g' : Graph}
    {r : Rel} {P : Props}
    (h : add_to_graph g es rs f = .ok g')
    (hmem : r ∈ rs)
    (hcount : rs.countP (fun x => x.source == r.source && x.target == r.target) = 1)
    (hs : r.source ≠ "") (ht : r.target ≠ "")
    (hP : getEdgeProps g r.source r.target = some P) :
    ∃ V, rtUpdated P (r.type.getD "RELATES_TO") = .ok V ∧
      getEdgeProps g' r.source r.target = some (setP P "relationship_types" V) ∧
      ∀ k, k ≠ "relationship_types" →
        getP (setP P "relationship_types" V) k = getP P k := by
  obtain ⟨g1, he, hr⟩ := add_to_graph_split h
  obtain ⟨V, hV, hfinal⟩ := addRels_unique_update hr hmem hcount hs ht
    ((getEdgeProps_congr (addEntities_edges he) _ _).trans hP)
  exact ⟨V, hV, hfinal, fun k hk => getP_setP_ne _ _ (Ne.symm hk)⟩

/-- Witness for the amended C4 at a concrete input. -/
theorem C4_amended_witness :
    ∃ V, rtUpdated [("source_files", .strSet ["f1"])] "T" = .ok V ∧
      getEdgeProps (⟨[("a", []), ("b", [])],
          [(("a", "b"), setP [("source_files", PVal.strSet ["f1"])] "relationship_types"
            (.strList ["T"]))]⟩ : Graph) "a" "b"
        = some (setP [("source_files", .strSet ["f1"])] "relationship_types" V) ∧
      ∀ k, k ≠ "relationship_types" →
        getP (setP [("source_files", PVal.strSet ["f1"])] "relationship_types" V) k =
          getP [("source_files", PVal.strSet ["f1"])] k := by
  exact @C4_amended gC4 [] [relT] "f2"
    ⟨[("a", []), ("b", [])],
      [(("a", "b"), setP [("source_files", PVal.strSet ["f1"])] "relationship_types"
        (.strList ["T"]))]⟩
    relT [("source_files", .strSet ["f1"])]
    (by rfl) (by simp) (by rfl) (by decide) (by decide) (by rfl)

/-! ## C10 — implicit node creation by edges -/

theorem hasNode_eq_isSome (g : Graph) (x : String) :
    hasNode g x = (getNodeProps g x).isSome := by
  unfold hasNode getNodeProps
  induction g.nodes with
  | nil => rfl
  | cons n rest ih =>
    rw [List.any_cons, List.find?_cons]
    cases hn : (n.1 == x) with
    | true => rfl
    | false => simpa using ih

theorem find?_setNodeList_ne {ns : List (String × Props)} {id x : String} (p : Props)
    (h : id ≠ x) :
    (setNodeList ns id p).find? (fun n => n.1 == x) = ns.find? (fun n => n.1 == x) := by
  induction ns with
  | nil => rfl
  | cons n rest ih =>
    rw [setNodeList]
    cases he : (n.1 == id) with
    | true =>
      rw [if_pos rfl, List.find?_cons, List.find?_cons]
      have hb : (n.1 == x) = false := by
        have hn : n.1 = id := by simpa using he
        simp [hn, h]
      have hb2 : (((id, p) : String × Props).1 == x) = false := by simp [h]
      rw [hb, hb2]
    | false =>
      rw [if_neg Bool.false_ne_true, List.find?_cons, List.find?_cons]
      cases he2 : (n.1 == x) with
      | true => rfl
      | false => exact ih

theorem getNodeProps_setNode_ne {g : Graph} {id x : String} (p : Props) (h : id ≠ x) :
    getNodeProps (setNodeProps g id p) x = getNodeProps g x := by
  show ((setNodeList g.nodes id p).find? (fun n => n.1 == x)).map (·.2) = _
  rw [find?_setNodeList_ne p h]
  rfl

theorem getNodeProps_addNode_ne {g : Graph} {id x : String} (p : Props) (h : id ≠ x) :
    getNodeProps (addNode g id p) x = getNodeProps g x := by
  unfold getNodeProps addNode
  rw [List.find?_append]
  have h1 : List.find? (fun n => n.1 == x) [(id, p)] = none := by
    rw [List.find?_cons]
    have hb : (((id, p) : String × Props).1 == x) = false := by simp [h]
    rw [hb, List.find?_nil]
  rw [h1]
  cases g.nodes.find? (fun n => n.1 == x) <;> rfl

theorem getNodeProps_addNode_self {g : Graph} {id : String} (p : Props)
    (h : getNodeProps g id = none) :
    getNodeProps (addNode g id p) id = some p := by
  unfold getNodeProps addNode at *
  rw [List.find?_append]
  cases hf : g.nodes.find? (fun n => n.1 == id) with
  | some e => rw [hf] at h; cases h
  | none =>
    have h1 : List.find? (fun n => n.1 == id) [(id, p)] = some (id, p) := by
      rw [List.find?_cons]
      have hb : (((id, p) : String × Props).1 == id) = true := by simp
      rw [hb]
    simp [h1]

theorem addEntity_node_frame {g : Graph} {e : Entity} {f : String} {g' : Graph} {x : String}
    (h : addEntity g e f = .ok g') (hne : e.id ≠ x) :
    getNodeProps g' x = getNodeProps g x := by
  rcases addEntity_cases h with ⟨_, rfl⟩ | ⟨_, props, p1, _, _, rfl⟩ | ⟨_, _, rfl⟩
  · rfl
  · exact getNodeProps_setNode_ne p1 hne
  · exact getNodeProps_addNode_ne _ hne

theorem addEntities_node_frame {es : List Entity} {g : Graph} {f : String} {g' : Graph}
    {x : String} (h : addEntities g es f = .ok g') (hall : ∀ e ∈ es, e.id ≠ x) :
    getNodeProps g' x = getNodeProps g x := by
  induction es generalizing g with
  | nil => cases h; rfl
  | cons e rest ih =>
    rw [addEntities] at h
    cases he : addEntity g e f with
    | error msg => rw [he] at h; cases h
    | ok g1 =>
      rw [he] at h
      exact (ih h (fun y hy => hall y (List.mem_cons_of_mem e hy))).trans
        (addEntity_node_frame he (hall e (List.mem_cons_self e rest)))

theorem getNodeProps_ensure_other {g : Graph} {id x : String} (h : id ≠ x) :
    getNodeProps (ensureNode g id) x = getNodeProps g x := by
  unfold ensureNode
  split
  · rfl
  · exact getNodeProps_addNode_ne _ h

theorem ensure_inv {g : Graph} {id x : String}
    (hinv : getNodeProps g x = none ∨ getNodeProps g x = some []) :
    getNodeProps (ensureNode g id) x = none ∨ getNodeProps (ensureNode g id) x = some [] := by
  by_cases hid : id = x
  · subst hid
    unfold ensureNode
    by_cases hn : hasNode g id = true
    · rw [if_pos hn]
      exact hinv
    · rw [if_neg hn]
      right
      refine getNodeProps_addNode_self _ ?_
      rw [hasNode_eq_isSome] at hn
      cases hgn : getNodeProps g id with
      | none => rfl
      | some p => rw [hgn] at hn; exact absurd rfl hn
  · rw [getNodeProps_ensure_other hid]
    exact hinv

theorem hasNode_ensure_self (g : Graph) (id : String) :
    hasNode (ensureNode g id) id = true := by
  unfold ensureNode
  by_cases h : hasNode g id = true
  · rw [if_pos h]
    exact h
  · rw [if_neg h]
    unfold hasNode addNode
    rw [List.any_append]
    simp

theorem hasNode_ensure_mono {g : Graph} {x : String} (id : String)
    (h : hasNode g x = true) : hasNode (ensureNode g id) x = true := by
  unfold ensureNode
  split
  · exact h
  · unfold hasNode addNode at *
    rw [List.any_append, h]
    rfl

theorem nxAddEdge_nodes (g : Graph) (s t : String) (p : Props) :
    (nxAddEdge g s t p).nodes = (ensureNode (ensureNode g s) t).nodes := by
  unfold nxAddEdge
  split <;> rfl

theorem hasNode_congr {g g' : Graph} (h : g'.nodes = g.nodes) (x : String) :
    hasNode g' x = hasNode g x := by
  unfold hasNode
  rw [h]

theorem getNodeProps_congr {g g' : Graph} (h : g'.nodes = g.nodes) (x : String) :
    getNodeProps g' x = getNodeProps g x := by
  unfold getNodeProps
  rw [h]

theorem addRel_node_inv {g : Graph} {r : Rel} {f : String} {g' : Graph} {x : String}
    (h : addRel g r f = .ok g')
    (hinv : getNodeProps g x = none ∨ getNodeProps g x = some []) :
    getNodeProps g' x = none ∨ getNodeProps g' x = some [] := by
  rcases addRel_cases h with ⟨_, rfl⟩ | ⟨_, _, P, V, _, _, rfl⟩ | ⟨_, _, _, rfl⟩
  · exact hinv
  · exact hinv
  · rw [getNodeProps_congr (nxAddEdge_nodes g r.source r.target _) x]
    exact ensure_inv (ensure_inv hinv)

theorem addRel_hasNode_mono {g : Graph} {r : Rel} {f : String} {g' : Graph} {x : String}
    (h : addRel g r f = .ok g') (hx : hasNode g x = true) : hasNode g' x = true := by
  rcases addRel_cases h with ⟨_, rfl⟩ | ⟨_, _, P, V, _, _, rfl⟩ | ⟨_, _, _, rfl⟩
  · exact hx
  · exact hx
  · rw [hasNode_congr (nxAddEdge_nodes g r.source r.target _) x]
    exact hasNode_ensure_mono _ (hasNode_ensure_mono _ hx)

theorem addRel_hasEdge_mono {g : Graph} {r : Rel} {f : String} {g' : Graph} {s t : String}
    (h : addRel g r f = .ok g') (hx : hasEdge g s t = true) : hasEdge g' s t = true := by
  by_cases hpair : r.source = s ∧ r.target = t
  · obtain ⟨h1, h2⟩ := hpair
    subst h1
    subst h2
    rw [hasEdge_eq_isSome] at hx ⊢
    rcases addRel_cases h with ⟨_, rfl⟩ | ⟨_, _, P, V, hP, _, rfl⟩ | ⟨_, _, hP, rfl⟩
    · exact hx
    · rw [getEdgeProps_setEdge_self _ hP]
      rfl
    · rw [hP] at hx
      cases hx
  · rw [hasEdge_eq_isSome] at hx ⊢
    rw [addRel_frame h hpair]
    exact hx

theorem addRel_own_edge {g : Graph} {r : Rel} {f : String} {g' : Graph}
    (h : addRel g r f = .ok g') (hs : r.source ≠ "") (ht : r.target ≠ "") :
    hasEdge g' r.source r.target = true := by
  rw [hasEdge_eq_isSome]
  rcases hcases : getEdgeProps g r.source r.target with _ | P
  · rw [addRel_create h hs ht hcases]
    rfl
  · rcases addRel_cases h with ⟨hor, rfl⟩ | ⟨_, _, P0, V, hP0, _, rfl⟩ | ⟨_, _, hP0, rfl⟩
    · rcases hor with h1 | h1
      · exact absurd h1 hs
      · exact absurd h1 ht
    · rw [getEdgeProps_setEdge_self _ hP0]
      rfl
    · rw [hcases] at hP0
      cases hP0

theorem addRels_hasNode_mono {rs : List Rel} {g : Graph} {f : String} {g' : Graph}
    {x : String} (h : addRels g rs f = .ok g') (hx : hasNode g x = true) :
    hasNode g' x = true := by
  induction rs generalizing g with
  | nil => cases h; exact hx
  | cons r rest ih =>
    rw [addRels] at h
    cases hr : addRel g r f with
    | error msg => rw [hr] at h; cases h
    | ok g1 =>
      rw [hr] at h
      exact ih h (addRel_hasNode_mono hr hx)

theorem addRels_hasEdge_mono {rs : List Rel} {g : Graph} {f : String} {g' : Graph}
    {s t : String} (h : addRels g rs f = .ok g') (hx : hasEdge g s t = true) :
    hasEdge g' s t = true := by
  induction rs generalizing g with
  | nil => cases h; exact hx
  | cons r rest ih =>
    rw [addRels] at h
    cases hr : addRel g r f with
    | error msg => rw [hr] at h; cases h
    | ok g1 =>
      rw [hr] at h
      exact ih h (addRel_hasEdge_mono hr hx)

theorem addRels_node_inv {rs : List Rel} {g : Graph} {f : String} {g' : Graph} {x : String}
    (h : addRels g rs f = .ok g')
    (hinv : getNodeProps g x = none ∨ getNodeProps g x = some []) :
    getNodeProps g' x = none ∨ getNodeProps g' x = some [] := by
  induction rs generalizing g with
  | nil => cases h; exact hinv
  | cons r rest ih =>
    rw [addRels] at h
    cases hr : addRel g r f with
    | error msg => rw [hr] at h; cases h
    | ok g1 =>
      rw [hr] at h
      exact ih h (addRel_node_inv hr hinv)

theorem addRels_C10 {rs : List Rel} {g : Graph} {f : String} {g' : Graph} {r : Rel}
    {x : String}
    (h : addRels g rs f = .ok g') (hmem : r ∈ rs) (hs : r.source ≠ "") (ht : r.target ≠ "")
    (hx : x = r.source ∨ x = r.target)
    (hinv : getNodeProps g x = none ∨ getNodeProps g x = some [])
    (hio : hasEdge g r.source r.target = false ∨ hasNode g x = true) :
    getNodeProps g' x = some [] ∧ hasEdge g' r.source r.target = true := by
  induction rs generalizing g with
  | nil => cases hmem
  | cons y rest ih =>
    rw [addRels] at h
    cases hy : addRel g y f with
    | error msg => rw [hy] at h; cases h
    | ok g1 =>
      rw [hy] at h
      have hinv1 := addRel_node_inv hy hinv
      by_cases hsame : y.source = r.source ∧ y.target = r.target
      · have hys : y.source ≠ "" := by rw [hsame.1]; exact hs
        have hyt : y.target ≠ "" := by rw [hsame.2]; exact ht
        have hedge1 : hasEdge g1 r.source r.target = true := by
          have hmono := addRel_own_edge hy hys hyt
          rwa [hsame.1, hsame.2] at hmono
        have hnode1 : hasNode g1 x = true := by
          rcases hio with hio | hio
          · rcases addRel_cases hy with ⟨hor, rfl⟩ | ⟨_, _, P, V, hP, _, rfl⟩ | ⟨_, _, hP, rfl⟩
            · rcases hor with h1 | h1
              · exact absurd h1 hys
              · exact absurd h1 hyt
            · exfalso
              rw [hsame.1, hsame.2] at hP
              rw [hasEdge_eq_isSome, hP] at hio
              cases hio
            · rw [hasNode_congr (nxAddEdge_nodes g y.source y.target _) x]
              rcases hx with hx | hx
              · rw [hx, ← hsame.1]
                exact hasNode_ensure_mono _ (hasNode_ensure_self g y.source)
              · rw [hx, ← hsame.2]
                exact hasNode_ensure_self _ y.target
          · exact addRel_hasNode_mono hy hio
        cases hmem with
        | head =>
          have hN := addRels_hasNode_mono h hnode1
          have hE := addRels_hasEdge_mono h hedge1
          have hI := addRels_node_inv h hinv1
          refine ⟨?_, hE⟩
          rcases hI with hI | hI
          · rw [hasNode_eq_isSome, hI] at hN
            cases hN
          · exact hI
        | tail _ hm =>
          exact ih h hm hinv1 (Or.inr hnode1)
      · have hmem2 : r ∈ rest := by
          cases hmem with
          | head => exact absurd ⟨rfl, rfl⟩ hsame
          | tail _ hm => exact hm
        have hio1 : hasEdge g1 r.source r.target = false ∨ hasNode g1 x = true := by
          rcases hio with hio | hio
          · left
            rw [hasEdge_eq_isSome, addRel_frame hy hsame, ← hasEdge_eq_isSome]
            exact hio
          · exact Or.inr (addRel_hasNode_mono hy hio)
        exact ih h hmem2 hinv1 hio1

/-- C10: a relationship endpoint that is neither an existing node nor
the id of any entity in the batch still gets its edge, and the endpoint
node comes into existence with an empty property dict — in particular
without `entity_type`, `entity_name` or `source_files`.  (The
`hasEdge g r.source r.target = false` hypothesis is automatic for
graphs built by the program: networkx never holds an edge whose
endpoint is not a node.) -/
theorem C10_implicit_node {g : Graph} {es : List Entity} {rs : List Rel} {f : String}
    {g' : Graph} {r : Rel} {x : String}
    (h : add_to_graph g es rs f = .ok g')
    (hmem : r ∈ rs) (hs : r.source ≠ "") (ht : r.target ≠ "")
    (hx : x = r.source ∨ x = r.target)
    (hnode : hasNode g x = false)
    (hent : ∀ e ∈ es, e.id ≠ x)
    (hpair : hasEdge g r.source r.target = false) :
    hasNode g' x = true ∧ getNodeProps g' x = some [] ∧
    hasEdge g' r.source r.target = true ∧
    nodeProp g' x "entity_type" = none ∧
    nodeProp g' x "entity_name" = none ∧
    nodeProp g' x "source_files" = none := by
  obtain ⟨g1, he, hr⟩ := add_to_graph_split h
  have hnone : getNodeProps g x = none := by
    rw [hasNode_eq_isSome] at hnode
    cases hgn : getNodeProps g x with
    | none => rfl
    | some p => rw [hgn] at hnode; cases hnode
  have hinv : getNodeProps g1 x = none ∨ getNodeProps g1 x = some [] :=
    Or.inl ((addEntities_node_frame he hent).trans hnone)
  have hedge1 : hasEdge g1 r.source r.target = false := by
    rw [hasEdge_eq_isSome, getEdgeProps_congr (addEntities_edges he), ← hasEdge_eq_isSome]
    exact hpair
  obtain ⟨hprops, hE⟩ := addRels_C10 hr hmem hs ht hx hinv (Or.inl hedge1)
  refine ⟨?_, hprops, hE, ?_, ?_, ?_⟩
  · rw [hasNode_eq_isSome, hprops]
    rfl
  · unfold nodeProp
    rw [hprops]
    rfl
  · unfold nodeProp
    rw [hprops]
    rfl
  · unfold nodeProp
    rw [hprops]
    rfl

/-- Witness for C10 at a concrete input. -/
theorem C10_implicit_node_witness :
    hasNode (⟨[("a", nodeCreate ⟨"a", some "Crime", some "A", []⟩ "f"), ("b", [])],
        [(("a", "b"), newEdgeProps relT "f")]⟩ : Graph) "b" = true ∧
    getNodeProps (⟨[("a", nodeCreate ⟨"a", some "Crime", some "A", []⟩ "f"), ("b", [])],
        [(("a", "b"), newEdgeProps relT "f")]⟩ : Graph) "b" = some [] ∧
    hasEdge (⟨[("a", nodeCreate ⟨"a", some "Crime", some "A", []⟩ "f"), ("b", [])],
        [(("a", "b"), newEdgeProps relT "f")]⟩ : Graph) "a" "b" = true ∧
    nodeProp (⟨[("a", nodeCreate ⟨"a", some "Crime", some "A", []⟩ "f"), ("b", [])],
        [(("a", "b"), newEdgeProps relT "f")]⟩ : Graph) "b" "entity_type" = none ∧
    nodeProp (⟨[("a", nodeCreate ⟨"a", some "Crime", some "A", []⟩ "f"), ("b", [])],
        [(("a", "b"), newEdgeProps relT "f")]⟩ : Graph) "b" "entity_name" = none ∧
    nodeProp (⟨[("a", nodeCreate ⟨"a", some "Crime", some "A", []⟩ "f"), ("b", [])],
        [(("a", "b"), newEdgeProps relT "f")]⟩ : Graph) "b" "source_files" = none := by
  exact @C10_implicit_node emptyGraph
    [⟨"a", some "Crime", some "A", []⟩] [relT] "f"
    ⟨[("a", nodeCreate ⟨"a", some "Crime", some "A", []⟩ "f"), ("b", [])],
      [(("a", "b"), newEdgeProps relT "f")]⟩
    relT "b"
    (by rfl) (by simp) (by decide) (by decide) (Or.inr rfl) (by rfl)
    (by intro e hh; simp at hh; rw [hh]; decide) (by rfl)

/-! ## C6 — matching recall -/

theorem isPrefixOf_self (l : List Char) : l.isPrefixOf l = true := by
  induction l with
  | nil => rfl
  | cons a rest ih => simp [List.isPrefixOf, ih]

theorem isSubstrOf_self (s : String) : isSubstrOf s s = true := by
  unfold isSubstrOf
  cases hl : s.toList with
  | nil => rfl
  | cons a rest =>
    rw [List.tails_cons, List.any_cons, isPrefixOf_self]
    rfl

/-- An exact match on the id, the entity name, or any string-valued
property forces the match test to succeed (when it does not raise). -/
theorem nodeMatches_exact {q id : String} {props : Props} {b : Bool}
    (hexact : id = q ∨ getP props "entity_name" = some (.str q) ∨
      ∃ kv ∈ props, kv.2 = PVal.str q)
    (hok : nodeMatches (strLower q) id props = .ok b) : b = true := by
  unfold nodeMatches at hok
  cases hname : (getP props "entity_name").getD (.str "") with
  | strSet l => rw [hname] at hok; cases hok
  | strList l => rw [hname] at hok; cases hok
  | str namev =>
    rw [hname] at hok
    cases hdesc : (getP props "description").getD (.str "") with
    | strSet l => rw [hdesc] at hok; cases hok
    | strList l => rw [hdesc] at hok; cases hok
    | str desc =>
      rw [hdesc] at hok
      injection hok with hok
      subst hok
      rcases hexact with hx | hx | ⟨kv, hkv, hkv2⟩
      · subst hx
        rw [isSubstrOf_self]
        simp
      · have : namev = q := by rw [hx] at hname; simpa using hname.symm
        subst this
        rw [isSubstrOf_self]
        simp
      · have hany : props.any (fun kv => match kv.2 with
            | .str v => isSubstrOf (strLower q) (strLower v)
            | _ => false) = true := by
          refine List.any_eq_true.mpr ⟨kv, hkv, ?_⟩
          rw [hkv2]
          exact isSubstrOf_self (strLower q)
        rw [hany]
        simp

/-- Every node the scan accepts contributes a match entry carrying its
id. -/
theorem collectMatches_complete {q : String} {ns : List (String × Props)}
    {ms : List MatchResult} {id : String} {props : Props}
    (h : collectMatches q ns = .ok ms) (hmem : (id, props) ∈ ns)
    (hforce : ∀ b, nodeMatches q id props = .ok b → b = true) :
    ∃ m ∈ ms, m.id = id := by
  induction ns generalizing ms with
  | nil => cases hmem
  | cons n rest ih =>
    obtain ⟨nid, nprops⟩ := n
    rw [collectMatches] at h
    cases hb : nodeMatches q nid nprops with
    | error msg => rw [hb] at h; cases h
    | ok b =>
      rw [hb] at h
      cases hrest : collectMatches q rest with
      | error msg => rw [hrest] at h; cases h
      | ok ms1 =>
        rw [hrest] at h
        injection h with h
        subst h
        rcases List.mem_cons.mp hmem with hhead | htail
        · injection hhead with h1 h2
          subst h1
          subst h2
          have hb2 : b = true := hforce b hb
          subst hb2
          exact ⟨matchEntry id props, List.mem_cons_self _ _, rfl⟩
        · obtain ⟨m, hm, hmid⟩ := ih hrest htail
          refine ⟨m, ?_, hmid⟩
          cases b
          · exact hm
          · exact List.mem_cons_of_mem _ hm

/-- C6 (amended): a node whose id, entity name, or some string-valued
property exactly equals the query is returned by
`find_related_entities` with the default `max_results = 10` whenever
the scan succeeds and finds at most 10 matches in total; with more than
10 matches only the first 10 in insertion order survive the cap, and an
exact match inserted later is dropped. -/
theorem C6_amended {g : Graph} {q : String} {ms : List MatchResult} {id : String}
    {props : Props}
    (hnode : (id, props) ∈ g.nodes)
    (hexact : id = q ∨ getP props "entity_name" = some (.str q) ∨
      ∃ kv ∈ props, kv.2 = PVal.str q)
    (hok : collectMatches (strLower q) g.nodes = .ok ms)
    (hlen : ms.length ≤ 10) :
    find_related_entities g q 10 = .ok ms ∧ ∃ m ∈ ms, m.id = id := by
  constructor
  · unfold find_related_entities
    rw [hok]
    show Except.ok (ms.take 10) = Except.ok ms
    rw [List.take_of_length_le hlen]
  · exact collectMatches_complete hok hnode (fun b hb => nodeMatches_exact hexact hb)

/-- Witness for the amended C6 at a concrete input. -/
theorem C6_amended_witness :
    find_related_entities (⟨[("x", [])], []⟩ : Graph) "x" 10 =
        .ok [matchEntry "x" []] ∧
      ∃ m ∈ [matchEntry "x" []], m.id = "x" := by
  exact @C6_amended ⟨[("x", [])], []⟩ "x" [matchEntry "x" []] "x" []
    (by simp) (Or.inl rfl) (by rfl) (by decide)

/-! ## C5 — traversal bound and no-duplicates -/

/-- All identifiers a traversal can ever mention: node ids and edge
endpoints. -/
def allIds (g : Graph) : List String :=
  g.nodes.map (·.1) ++ g.edges.map (·.1.1) ++ g.edges.map (·.1.2)

/-- Undirected adjacency: an edge between `a` and `b` in either
direction. -/
def undirAdj (g : Graph) (a b : String) : Bool :=
  g.edges.any (fun e => (e.1.1 == a && e.1.2 == b) || (e.1.1 == b && e.1.2 == a))

/-- `reachWithin g a b n` decides whether the shortest hop-distance
from `a` to `b`, following edges in either direction, is at most
`n`. -/
def reachWithin (g : Graph) (a b : String) : Nat → Bool
  | 0 => a == b
  | n + 1 => reachWithin g a b n ||
      (allIds g).any (fun c => reachWithin g a c n && undirAdj g c b)

theorem reach_zero (g : Graph) (a : String) : reachWithin g a a 0 = true := by
  simp [reachWithin]

theorem reach_succ {g : Graph} {a b : String} {n : Nat}
    (h : reachWithin g a b n = true) : reachWithin g a b (n + 1) = true := by
  rw [reachWithin, h]
  rfl

theorem reach_mono {g : Graph} {a b : String} {k d : Nat} (hkd : k ≤ d)
    (h : reachWithin g a b k = true) : reachWithin g a b d = true := by
  induction d with
  | zero => rwa [Nat.le_zero.mp hkd] at h
  | succ d ih =>
    rcases Nat.lt_or_ge k (d + 1) with hlt | hge
    · exact reach_succ (ih (Nat.lt_succ_iff.mp hlt))
    · rwa [Nat.le_antisymm hkd hge] at h

theorem reach_step {g : Graph} {a c b : String} {n : Nat}
    (h : reachWithin g a c n = true) (hc : c ∈ allIds g)
    (hadj : undirAdj g c b = true) : reachWithin g a b (n + 1) = true := by
  rw [reachWithin]
  have : (allIds g).any (fun x => reachWithin g a x n && undirAdj g x b) = true :=
    List.any_eq_true.mpr ⟨c, hc, by simp [h, hadj]⟩
  rw [this]
  simp

theorem successors_adj {g : Graph} {c nbr : String} (h : nbr ∈ successors g c) :
    undirAdj g c nbr = true ∧ nbr ∈ allIds g := by
  unfold successors at h
  obtain ⟨e, he, hnbr⟩ := List.mem_map.mp h
  have hmem := List.mem_filter.mp he
  have hc : e.1.1 = c := by simpa using hmem.2
  constructor
  · refine List.any_eq_true.mpr ⟨e, hmem.1, ?_⟩
    have h1 : (e.1.1 == c) = true := by simp [hc]
    have h2 : (e.1.2 == nbr) = true := by simp [hnbr]
    rw [h1, h2]
    rfl
  · unfold allIds
    refine List.mem_append.mpr (Or.inr ?_)
    exact List.mem_map.mpr ⟨e, hmem.1, hnbr⟩

theorem predecessors_adj {g : Graph} {c nbr : String} (h : nbr ∈ predecessors g c) :
    undirAdj g c nbr = true ∧ nbr ∈ allIds g := by
  unfold predecessors at h
  obtain ⟨e, he, hnbr⟩ := List.mem_map.mp h
  have hmem := List.mem_filter.mp he
  have hc : e.1.2 = c := by simpa using hmem.2
  constructor
  · refine List.any_eq_true.mpr ⟨e, hmem.1, ?_⟩
    have h1 : (e.1.1 == nbr) = true := by simp [hnbr]
    have h2 : (e.1.2 == c) = true := by simp [hc]
    rw [h1, h2]
    simp
  · unfold allIds
    refine List.mem_append.mpr (Or.inl (List.mem_append.mpr (Or.inr ?_)))
    exact List.mem_map.mpr ⟨e, hmem.1, hnbr⟩

/-- Invariant on the recorded entries: distinct ids, every id visited,
every id reachable within the depth bound. -/
def RelInv (g : Graph) (start : String) (depth : Nat) (vis : List String)
    (rel : List RelatedEntry) : Prop :=
  (rel.map (fun ent => ent.entity_id)).Nodup ∧
  ∀ ent ∈ rel, ent.entity_id ∈ vis ∧ reachWithin g start ent.entity_id depth = true

/-- Invariant on the pending queue: depths bounded, nodes reachable at
their recorded depth and drawn from the graph's identifiers. -/
def QueueInv (g : Graph) (start : String) (depth : Nat)
    (q : List (String × Nat)) : Prop :=
  ∀ p ∈ q, p.2 ≤ depth ∧ reachWithin g start p.1 p.2 = true ∧ p.1 ∈ allIds g

theorem visitNbr_cases (g : Graph) (filter : Option (List String)) (rev : Bool)
    (c : String) (cd : Nat) (vis : List String) (rel : List RelatedEntry)
    (q : List (String × Nat)) (nbr : String) :
    visitNbr g filter rev c cd (vis, rel, q) nbr = (vis, rel, q) ∨
    (vis.contains nbr = false ∧ ∃ ent : RelatedEntry, ent.entity_id = nbr ∧
      visitNbr g filter rev c cd (vis, rel, q) nbr =
        (vis ++ [nbr], rel ++ [ent], q ++ [(nbr, cd + 1)])) := by
  unfold visitNbr
  by_cases hvis : vis.contains nbr = true
  · rw [if_pos hvis]
    exact Or.inl rfl
  · have hvisf : vis.contains nbr = false := by
      cases h : vis.contains nbr
      · rfl
      · exact absurd h hvis
    rw [if_neg hvis]
    by_cases hp : relPass filter (nbrRelType g rev c nbr) = true
    · rw [if_pos hp]
      exact Or.inr ⟨hvisf, nbrEntry g rev c nbr cd, rfl, rfl⟩
    · rw [if_neg hp]
      exact Or.inl rfl

theorem visitFold_inv {g : Graph} (filter : Option (List String)) (rev : Bool)
    {c start : String} {cd depth : Nat}
    (hcd : cd < depth) (hc : reachWithin g start c cd = true) :
    ∀ (nbrs : List String) (vis : List String) (rel : List RelatedEntry)
      (q : List (String × Nat)),
      (∀ nbr ∈ nbrs, undirAdj g c nbr = true ∧ nbr ∈ allIds g) →
      c ∈ allIds g →
      RelInv g start depth vis rel →
      QueueInv g start depth q →
      RelInv g start depth (nbrs.foldl (visitNbr g filter rev c cd) (vis, rel, q)).1
          (nbrs.foldl (visitNbr g filter rev c cd) (vis, rel, q)).2.1 ∧
        QueueInv g start depth (nbrs.foldl (visitNbr g filter rev c cd) (vis, rel, q)).2.2 := by
  intro nbrs
  induction nbrs with
  | nil => intro vis rel q _ _ hR hQ; exact ⟨hR, hQ⟩
  | cons nbr rest ih =>
    intro vis rel q hadj hcid hR hQ
    rw [List.foldl_cons]
    rcases visitNbr_cases g filter rev c cd vis rel q nbr with heq | ⟨hvisf, ent, hentid, heq⟩
    · rw [heq]
      exact ih vis rel q (fun y hy => hadj y (List.mem_cons_of_mem nbr hy)) hcid hR hQ
    · rw [heq]
      have hnbr := hadj nbr (List.mem_cons_self nbr rest)
      have hreach1 : reachWithin g start nbr (cd + 1) = true :=
        reach_step hc hcid hnbr.1
      have hreachd : reachWithin g start nbr depth = true :=
        reach_mono (Nat.succ_le_of_lt hcd) hreach1
      have hnotvis : nbr ∉ vis := by
        intro hm
        have : vis.contains nbr = true := by simpa using hm
        rw [this] at hvisf
        cases hvisf
      refine ih (vis ++ [nbr]) (rel ++ [ent]) (q ++ [(nbr, cd + 1)])
        (fun y hy => hadj y (List.mem_cons_of_mem nbr hy)) hcid ⟨?_, ?_⟩ ?_
      · rw [List.map_append]
        rw [List.nodup_append]
        refine ⟨hR.1, by simp, ?_⟩
        intro a ha hb
        simp only [List.map_cons, List.map_nil, List.mem_singleton, hentid] at hb
        subst hb
        obtain ⟨ent0, hent0, hid0⟩ := List.mem_map.mp ha
        exact hnotvis (hid0 ▸ (hR.2 ent0 hent0).1)
      · intro e he
        rcases List.mem_append.mp he with he | he
        · exact ⟨List.mem_append_left _ (hR.2 e he).1, (hR.2 e he).2⟩
        · have : e = ent := List.mem_singleton.mp he
          subst this
          rw [hentid]
          exact ⟨List.mem_append_right _ (by simp), hreachd⟩
      · intro p hp
        rcases List.mem_append.mp hp with hp | hp
        · exact hQ p hp
        · have : p = (nbr, cd + 1) := List.mem_singleton.mp hp
          subst this
          exact ⟨Nat.succ_le_of_lt hcd, hreach1, hnbr.2⟩

theorem queueInv_append {g : Graph} {start : String} {depth : Nat}
    {a b : List (String × Nat)} (ha : QueueInv g start depth a)
    (hb : QueueInv g start depth b) : QueueInv g start depth (a ++ b) := by
  intro p hp
  rcases List.mem_append.mp hp with hp | hp
  · exact ha p hp
  · exact hb p hp

theorem bfsLoop_inv {g : Graph} {filter : Option (List String)} {depth : Nat}
    {start : String} :
    ∀ (fuel : Nat) (queue : List (String × Nat)) (vis : List String)
      (rel : List RelatedEntry),
      QueueInv g start depth queue → RelInv g start depth vis rel →
      ((bfsLoop g filter depth fuel queue vis rel).map (fun ent => ent.entity_id)).Nodup ∧
      ∀ ent ∈ bfsLoop g filter depth fuel queue vis rel,
        reachWithin g start ent.entity_id depth = true := by
  intro fuel
  induction fuel with
  | zero =>
    intro queue vis rel _ hR
    exact ⟨hR.1, fun ent he => (hR.2 ent he).2⟩
  | succ fuel ih =>
    intro queue vis rel hQ hR
    cases queue with
    | nil => exact ⟨hR.1, fun ent he => (hR.2 ent he).2⟩
    | cons p qs =>
      obtain ⟨c, cd⟩ := p
      rw [bfsLoop]
      by_cases hcd : depth ≤ cd
      · rw [if_pos hcd]
        exact ih qs vis rel (fun x hx => hQ x (List.mem_cons_of_mem _ hx)) hR
      · rw [if_neg hcd]
        have hcd2 : cd < depth := Nat.lt_of_not_le hcd
        have hhead := hQ (c, cd) (List.mem_cons_self _ _)
        have h1 := visitFold_inv filter false hcd2 hhead.2.1 (successors g c) vis rel []
          (fun y hy => successors_adj hy) hhead.2.2
          hR (fun p hp => absurd hp (List.not_mem_nil p))
        have h2 := visitFold_inv filter true hcd2 hhead.2.1 (predecessors g c)
          ((successors g c).foldl (visitNbr g filter false c cd) (vis, rel, [])).1
          ((successors g c).foldl (visitNbr g filter false c cd) (vis, rel, [])).2.1
          ((successors g c).foldl (visitNbr g filter false c cd) (vis, rel, [])).2.2
          (fun y hy => predecessors_adj hy) hhead.2.2 h1.1 h1.2
        exact ih _ _ _
          (queueInv_append (fun x hx => hQ x (List.mem_cons_of_mem _ hx)) h2.2) h2.1

theorem hasNode_mem_allIds {g : Graph} {x : String} (h : hasNode g x = true) :
    x ∈ allIds g := by
  unfold hasNode at h
  obtain ⟨n, hn, hx⟩ := List.any_eq_true.mp h
  unfold allIds
  refine List.mem_append.mpr (Or.inl (List.mem_append.mpr (Or.inl ?_)))
  exact List.mem_map.mpr ⟨n, hn, by simpa using hx⟩

/-- C5: for every graph, start id, relationship-type filter and depth
`d`, `traverse_from_entity` never reports the same node twice, and
every reported node lies within hop-distance `d` of the start node,
following edges in either direction (`reachWithin g id _ d` decides
"shortest hop-distance at most d"). -/
theorem C5_traversal_bound (g : Graph) (entityId : String)
    (filter : Option (List String)) (d : Nat) :
    ((traverse_from_entity g entityId filter d).related.map
        (fun ent => ent.entity_id)).Nodup ∧
    ∀ ent ∈ (traverse_from_entity g entityId filter d).related,
      reachWithin g entityId ent.entity_id d = true := by
  unfold traverse_from_entity
  by_cases h : hasNode g entityId = true
  · rw [if_neg (by simp [h])]
    refine bfsLoop_inv (2 * g.edges.length + 2) [(entityId, 0)] [entityId] [] ?_ ?_
    · intro p hp
      have : p = (entityId, 0) := List.mem_singleton.mp hp
      subst this
      exact ⟨Nat.zero_le d, reach_zero g entityId, hasNode_mem_allIds h⟩
    · exact ⟨List.nodup_nil, fun ent he => absurd he (List.not_mem_nil ent)⟩
  · rw [if_pos (by simpa using h)]
    exact ⟨List.nodup_nil, fun ent he => absurd he (List.not_mem_nil ent)⟩

/-! ## C9 — commutativity on disjoint batches -/

/-- The identifiers a batch can touch: entity ids and relationship
endpoints. -/
def batchIds (es : List Entity) (rs : List Rel) : List String :=
  es.map (fun e => e.id) ++ rs.map (fun r => r.source) ++ rs.map (fun r => r.target)

/-- A graph extended on the left by an untouched part. -/
def gappend (pre g : Graph) : Graph :=
  ⟨pre.nodes ++ g.nodes, pre.edges ++ g.edges⟩

theorem gappend_empty (g : Graph) : gappend g emptyGraph = g := by
  unfold gappend emptyGraph
  simp

theorem find?_app_none {α : Type} {l1 l2 : List α} {q : α → Bool}
    (h : l1.find? q = none) : (l1 ++ l2).find? q = l2.find? q := by
  rw [List.find?_append, h]
  rfl

theorem getNodeProps_gappend {pre g : Graph} {id : String}
    (h : ∀ n ∈ pre.nodes, n.1 ≠ id) :
    getNodeProps (gappend pre g) id = getNodeProps g id := by
  unfold getNodeProps gappend
  rw [show (⟨pre.nodes ++ g.nodes, pre.edges ++ g.edges⟩ : Graph).nodes =
    pre.nodes ++ g.nodes from rfl]
  rw [find?_app_none (List.find?_eq_none.mpr (fun x hx => by simp [h x hx]))]

theorem hasNode_gappend {pre g : Graph} {id : String}
    (h : ∀ n ∈ pre.nodes, n.1 ≠ id) :
    hasNode (gappend pre g) id = hasNode g id := by
  rw [hasNode_eq_isSome, hasNode_eq_isSome, getNodeProps_gappend h]

theorem getEdgeProps_gappend {pre g : Graph} {s t : String}
    (h : ∀ e ∈ pre.edges, e.1.1 ≠ s) :
    getEdgeProps (gappend pre g) s t = getEdgeProps g s t := by
  unfold getEdgeProps gappend
  rw [show (⟨pre.nodes ++ g.nodes, pre.edges ++ g.edges⟩ : Graph).edges =
    pre.edges ++ g.edges from rfl]
  rw [find?_app_none (List.find?_eq_none.mpr (fun x hx => by simp [h x hx]))]

theorem hasEdge_gappend {pre g : Graph} {s t : String}
    (h : ∀ e ∈ pre.edges, e.1.1 ≠ s) :
    hasEdge (gappend pre g) s t = hasEdge g s t := by
  rw [hasEdge_eq_isSome, hasEdge_eq_isSome, getEdgeProps_gappend h]

theorem setNodeList_append_skip {pre other : List (String × Props)} {id : String}
    (p : Props) (h : ∀ n ∈ pre, n.1 ≠ id) :
    setNodeList (pre ++ other) id p = pre ++ setNodeList other id p := by
  induction pre with
  | nil => rfl
  | cons n rest ih =>
    rw [List.cons_append, setNodeList,
      if_neg (by simp [h n (List.mem_cons_self n rest)]), List.cons_append,
      ih (fun x hx => h x (List.mem_cons_of_mem n hx))]

theorem setEdgeList_append_skip {pre other : List ((String × String) × Props)}
    {s t : String} (p : Props) (h : ∀ e ∈ pre, e.1.1 ≠ s) :
    setEdgeList (pre ++ other) s t p = pre ++ setEdgeList other s t p := by
  induction pre with
  | nil => rfl
  | cons e rest ih =>
    rw [List.cons_append, setEdgeList,
      if_neg (by simp [h e (List.mem_cons_self e rest)]), List.cons_append,
      ih (fun x hx => h x (List.mem_cons_of_mem e hx))]

theorem setNodeProps_gappend {pre g : Graph} {id : String} (p : Props)
    (h : ∀ n ∈ pre.nodes, n.1 ≠ id) :
    setNodeProps (gappend pre g) id p = gappend pre (setNodeProps g id p) := by
  unfold setNodeProps gappend
  simp only
  rw [setNodeList_append_skip p h]

theorem setEdgeProps_gappend {pre g : Graph} {s t : String} (p : Props)
    (h : ∀ e ∈ pre.edges, e.1.1 ≠ s) :
    setEdgeProps (gappend pre g) s t p = gappend pre (setEdgeProps g s t p) := by
  unfold setEdgeProps gappend
  simp only
  rw [setEdgeList_append_skip p h]

theorem addNode_gappend (pre g : Graph) (id : String) (p : Props) :
    addNode (gappend pre g) id p = gappend pre (addNode g id p) := by
  unfold addNode gappend
  simp

theorem ensureNode_gappend {pre g : Graph} {id : String}
    (h : ∀ n ∈ pre.nodes, n.1 ≠ id) :
    ensureNode (gappend pre g) id = gappend pre (ensureNode g id) := by
  unfold ensureNode
  rw [hasNode_gappend h]
  by_cases hn : hasNode g id = true
  · rw [if_pos hn, if_pos hn]
  · rw [if_neg hn, if_neg hn, addNode_gappend]

theorem nxAddEdge_gappend {pre g : Graph} {s t : String} (p : Props)
    (hs : ∀ n ∈ pre.nodes, n.1 ≠ s) (ht : ∀ n ∈ pre.nodes, n.1 ≠ t)
    (hes : ∀ e ∈ pre.edges, e.1.1 ≠ s)
    (hfalse : hasEdge g s t = false) :
    nxAddEdge (gappend pre g) s t p = gappend pre (nxAddEdge g s t p) := by
  have hens : ensureNode (ensureNode (gappend pre g) s) t =
      gappend pre (ensureNode (ensureNode g s) t) := by
    rw [ensureNode_gappend hs, ensureNode_gappend ht]
  have hfg : hasEdge (ensureNode (ensureNode g s) t) s t = false := by
    rw [hasEdge_ensureNode, hasEdge_ensureNode]
    exact hfalse
  have hes2 : ∀ e ∈ pre.edges, e.1.1 ≠ s := hes
  unfold nxAddEdge
  rw [hens, hasEdge_gappend (g := ensureNode (ensureNode g s) t) hes2, hfg]
  rw [if_neg Bool.false_ne_true, if_neg Bool.false_ne_true]
  show ({ gappend pre (ensureNode (ensureNode g s) t) with
      edges := (gappend pre (ensureNode (ensureNode g s) t)).edges ++ [((s, t), p)] } : Graph) =
    gappend pre { ensureNode (ensureNode g s) t with
      edges := (ensureNode (ensureNode g s) t).edges ++ [((s, t), p)] }
  unfold gappend
  simp

/-- Merging one entity commutes with an untouched left part. -/
theorem addEntity_sim {pre g : Graph} {e : Entity} {f : String}
    (h : ∀ n ∈ pre.nodes, n.1 ≠ e.id) :
    addEntity (gappend pre g) e f = (addEntity g e f).map (gappend pre) := by
  unfold addEntity
  by_cases hid : (e.id == "") = true
  · rw [if_pos hid, if_pos hid]
    rfl
  · rw [if_neg hid, if_neg hid, getNodeProps_gappend h]
    cases hn : getNodeProps g e.id with
    | some props =>
      dsimp only
      cases hu : nodeUpd props e f with
      | ok p1 =>
        show Except.ok (setNodeProps (gappend pre g) e.id p1) = _
        rw [setNodeProps_gappend p1 h]
        rfl
      | error msg => rfl
    | none =>
      dsimp only
      show Except.ok (addNode (gappend pre g) e.id (nodeCreate e f)) = _
      rw [addNode_gappend]
      rfl

theorem addEntities_sim {es : List Entity} {pre g : Graph} {f : String}
    (hall : ∀ e ∈ es, ∀ n ∈ pre.nodes, n.1 ≠ e.id) :
    addEntities (gappend pre g) es f = (addEntities g es f).map (gappend pre) := by
  induction es generalizing g with
  | nil => rfl
  | cons e rest ih =>
    rw [addEntities, addEntities,
      addEntity_sim (hall e (List.mem_cons_self e rest))]
    cases he : addEntity g e f with
    | error msg => rfl
    | ok g1 =>
      show addEntities (gappend pre g1) rest f = _
      exact ih (fun x hx => hall x (List.mem_cons_of_mem e hx))

/-- Merging one relationship commutes with an untouched left part. -/
theorem addRel_sim {pre g : Graph} {r : Rel} {f : String}
    (hs : ∀ n ∈ pre.nodes, n.1 ≠ r.source) (ht : ∀ n ∈ pre.nodes, n.1 ≠ r.target)
    (hes : ∀ e ∈ pre.edges, e.1.1 ≠ r.source) :
    addRel (gappend pre g) r f = (addRel g r f).map (gappend pre) := by
  unfold addRel
  by_cases hor : (r.source == "" || r.target == "") = true
  · rw [if_pos hor, if_pos hor]
    rfl
  · rw [if_neg hor, if_neg hor, getEdgeProps_gappend hes]
    cases hP : getEdgeProps g r.source r.target with
    | some P =>
      dsimp only
      cases hrt : rtUpdated P (r.type.getD "RELATES_TO") with
      | ok V =>
        show Except.ok (setEdgeProps (gappend pre g) r.source r.target
          (setP P "relationship_types" V)) = _
        rw [setEdgeProps_gappend _ hes]
        rfl
      | error msg => rfl
    | none =>
      dsimp only
      show Except.ok (nxAddEdge (gappend pre g) r.source r.target (newEdgeProps r f)) = _
      rw [nxAddEdge_gappend _ hs ht hes (by rw [hasEdge_eq_isSome, hP]; rfl)]
      rfl

theorem addRels_sim {rs : List Rel} {pre g : Graph} {f : String}
    (hall : ∀ r ∈ rs, (∀ n ∈ pre.nodes, n.1 ≠ r.source) ∧
      (∀ n ∈ pre.nodes, n.1 ≠ r.target) ∧ (∀ e ∈ pre.edges, e.1.1 ≠ r.source)) :
    addRels (gappend pre g) rs f = (addRels g rs f).map (gappend pre) := by
  induction rs generalizing g with
  | nil => rfl
  | cons r rest ih =>
    have hr := hall r (List.mem_cons_self r rest)
    rw [addRels, addRels, addRel_sim hr.1 hr.2.1 hr.2.2]
    cases he : addRel g r f with
    | error msg => rfl
    | ok g1 =>
      show addRels (gappend pre g1) rest f = _
      exact ih (fun x hx => hall x (List.mem_cons_of_mem r hx))

theorem mem_batch_ent {es : List Entity} {rs : List Rel} {e : Entity} (h : e ∈ es) :
    e.id ∈ batchIds es rs := by
  unfold batchIds
  exact List.mem_append.mpr (Or.inl (List.mem_append.mpr (Or.inl
    (List.mem_map.mpr ⟨e, h, rfl⟩))))

theorem mem_batch_src {es : List Entity} {rs : List Rel} {r : Rel} (h : r ∈ rs) :
    r.source ∈ batchIds es rs := by
  unfold batchIds
  exact List.mem_append.mpr (Or.inl (List.mem_append.mpr (Or.inr
    (List.mem_map.mpr ⟨r, h, rfl⟩))))

theorem mem_batch_tgt {es : List Entity} {rs : List Rel} {r : Rel} (h : r ∈ rs) :
    r.target ∈ batchIds es rs := by
  unfold batchIds
  exact List.mem_append.mpr (Or.inr (List.mem_map.mpr ⟨r, h, rfl⟩))

/-- The whole merge commutes with a part of the graph whose node ids
and edge sources the batch never mentions. -/
theorem add_to_graph_sim {pre g : Graph} {es : List Entity} {rs : List Rel} {f : String}
    (hn : ∀ n ∈ pre.nodes, ∀ x ∈ batchIds es rs, n.1 ≠ x)
    (he : ∀ e ∈ pre.edges, ∀ x ∈ batchIds es rs, e.1.1 ≠ x) :
    add_to_graph (gappend pre g) es rs f = (add_to_graph g es rs f).map (gappend pre) := by
  unfold add_to_graph
  rw [addEntities_sim (fun e hmem n hn2 => hn n hn2 e.id (mem_batch_ent hmem))]
  cases h1 : addEntities g es f with
  | error msg => rfl
  | ok g1 =>
    show addRels (gappend pre g1) rs f = _
    exact addRels_sim (fun r hmem =>
      ⟨fun n hn2 => hn n hn2 r.source (mem_batch_src hmem),
       fun n hn2 => hn n hn2 r.target (mem_batch_tgt hmem),
       fun e he2 => he e he2 r.source (mem_batch_src hmem)⟩)

theorem map_fst_setNodeList (ns : List (String × Props)) (id : String) (p : Props) :
    (setNodeList ns id p).map Prod.fst = ns.map Prod.fst := by
  induction ns with
  | nil => rfl
  | cons n rest ih =>
    rw [setNodeList]
    cases he : (n.1 == id) with
    | true =>
      rw [if_pos rfl]
      have hn : n.1 = id := by simpa using he
      simp [hn]
    | false =>
      rw [if_neg Bool.false_ne_true]
      simp [ih]

theorem addEntity_scope {g : Graph} {e : Entity} {f : String} {g' : Graph}
    (h : addEntity g e f = .ok g') :
    ∀ id ∈ g'.nodes.map Prod.fst, id ∈ g.nodes.map Prod.fst ∨ id = e.id := by
  rcases addEntity_cases h with ⟨_, rfl⟩ | ⟨_, props, p1, _, _, rfl⟩ | ⟨_, _, rfl⟩
  · exact fun id hid => Or.inl hid
  · intro id hid
    rw [show (setNodeProps g e.id p1).nodes = setNodeList g.nodes e.id p1 from rfl,
      map_fst_setNodeList] at hid
    exact Or.inl hid
  · intro id hid
    rw [show (addNode g e.id (nodeCreate e f)).nodes =
      g.nodes ++ [(e.id, nodeCreate e f)] from rfl, List.map_append] at hid
    rcases List.mem_append.mp hid with h1 | h1
    · exact Or.inl h1
    · exact Or.inr (by simpa using h1)

theorem addEntities_scope {es : List Entity} {g : Graph} {f : String} {g' : Graph}
    (h : addEntities g es f = .ok g') :
    ∀ id ∈ g'.nodes.map Prod.fst, id ∈ g.nodes.map Prod.fst ∨ ∃ e ∈ es, id = e.id := by
  induction es generalizing g with
  | nil => cases h; exact fun id hid => Or.inl hid
  | cons e rest ih =>
    rw [addEntities] at h
    cases he : addEntity g e f with
    | error msg => rw [he] at h; cases h
    | ok g1 =>
      rw [he] at h
      intro id hid
      rcases ih h id hid with h1 | ⟨e2, he2, h2⟩
      · rcases addEntity_scope he id h1 with h2 | h2
        · exact Or.inl h2
        · exact Or.inr ⟨e, List.mem_cons_self e rest, h2⟩
      · exact Or.inr ⟨e2, List.mem_cons_of_mem e he2, h2⟩

theorem ensureNode_scope (g : Graph) (id : String) :
    ∀ x ∈ (ensureNode g id).nodes.map Prod.fst, x ∈ g.nodes.map Prod.fst ∨ x = id := by
  unfold ensureNode
  split
  · exact fun x hx => Or.inl hx
  · intro x hx
    rw [show (addNode g id []).nodes = g.nodes ++ [(id, [])] from rfl,
      List.map_append] at hx
    rcases List.mem_append.mp hx with h1 | h1
    · exact Or.inl h1
    · exact Or.inr (by simpa using h1)

theorem addRel_scope_nodes {g : Graph} {r : Rel} {f : String} {g' : Graph}
    (h : addRel g r f = .ok g') :
    ∀ id ∈ g'.nodes.map Prod.fst,
      id ∈ g.nodes.map Prod.fst ∨ id = r.source ∨ id = r.target := by
  rcases addRel_cases h with ⟨_, rfl⟩ | ⟨_, _, P, V, _, _, rfl⟩ | ⟨_, _, _, rfl⟩
  · exact fun id hid => Or.inl hid
  · exact fun id hid => Or.inl hid
  · intro id hid
    rw [show (nxAddEdge g r.source r.target (newEdgeProps r f)).nodes =
      (ensureNode (ensureNode g r.source) r.target).nodes from
        nxAddEdge_nodes g r.source r.target _] at hid
    rcases ensureNode_scope (ensureNode g r.source) r.target id hid with h1 | h1
    · rcases ensureNode_scope g r.source id h1 with h2 | h2
      · exact Or.inl h2
      · exact Or.inr (Or.inl h2)
    · exact Or.inr (Or.inr h1)

theorem addRels_scope_nodes {rs : List Rel} {g : Graph} {f : String} {g' : Graph}
    (h : addRels g rs f = .ok g') :
    ∀ id ∈ g'.nodes.map Prod.fst,
      id ∈ g.nodes.map Prod.fst ∨ ∃ r ∈ rs, id = r.source ∨ id = r.target := by
  induction rs generalizing g with
  | nil => cases h; exact fun id hid => Or.inl hid
  | cons r rest ih =>
    rw [addRels] at h
    cases hr : addRel g r f with
    | error msg => rw [hr] at h; cases h
    | ok g1 =>
      rw [hr] at h
      intro id hid
      rcases ih h id hid with h1 | ⟨r2, hr2, h2⟩
      · rcases addRel_scope_nodes hr id h1 with h2 | h2
        · exact Or.inl h2
        · exact Or.inr ⟨r, List.mem_cons_self r rest, h2⟩
      · exact Or.inr ⟨r2, List.mem_cons_of_mem r hr2, h2⟩

theorem map_key1_setEdgeList (es : List ((String × String) × Props)) (s t : String)
    (p : Props) :
    (setEdgeList es s t p).map (fun e => e.1.1) = es.map (fun e => e.1.1) := by
  induction es with
  | nil => rfl
  | cons e rest ih =>
    rw [setEdgeList]
    cases he : (e.1.1 == s && e.1.2 == t) with
    | true =>
      rw [if_pos rfl]
      have hn : e.1.1 = s := by
        simp only [Bool.and_eq_true, beq_iff_eq] at he
        exact he.1
      simp [hn]
    | false =>
      rw [if_neg Bool.false_ne_true]
      simp [ih]

theorem addRel_scope_edges {g : Graph} {r : Rel} {f : String} {g' : Graph}
    (h : addRel g r f = .ok g') :
    ∀ a ∈ g'.edges.map (fun e => e.1.1),
      a ∈ g.edges.map (fun e => e.1.1) ∨ a = r.source := by
  rcases addRel_cases h with ⟨_, rfl⟩ | ⟨_, _, P, V, _, _, rfl⟩ | ⟨_, _, hP, rfl⟩
  · exact fun a ha => Or.inl ha
  · intro a ha
    rw [show (setEdgeProps g r.source r.target (setP P "relationship_types" V)).edges =
      setEdgeList g.edges r.source r.target _ from rfl, map_key1_setEdgeList] at ha
    exact Or.inl ha
  · intro a ha
    rw [nxAddEdge_edges_new _ (getEdgeProps_hasEdge_false hP), List.map_append] at ha
    rcases List.mem_append.mp ha with h1 | h1
    · exact Or.inl h1
    · exact Or.inr (by simpa using h1)

theorem addRels_scope_edges {rs : List Rel} {g : Graph} {f : String} {g' : Graph}
    (h : addRels g rs f = .ok g') :
    ∀ a ∈ g'.edges.map (fun e => e.1.1),
      a ∈ g.edges.map (fun e => e.1.1) ∨ ∃ r ∈ rs, a = r.source := by
  induction rs generalizing g with
  | nil => cases h; exact fun a ha => Or.inl ha
  | cons r rest ih =>
    rw [addRels] at h
    cases hr : addRel g r f with
    | error msg => rw [hr] at h; cases h
    | ok g1 =>
      rw [hr] at h
      intro a ha
      rcases ih h a ha with h1 | ⟨r2, hr2, h2⟩
      · rcases addRel_scope_edges hr a h1 with h2 | h2
        · exact Or.inl h2
        · exact Or.inr ⟨r, List.mem_cons_self r rest, h2⟩
      · exact Or.inr ⟨r2, List.mem_cons_of_mem r hr2, h2⟩

/-- A batch merged into the empty graph only mentions its own
identifiers. -/
theorem add_to_graph_scope {es : List Entity} {rs : List Rel} {f : String} {gA : Graph}
    (h : add_to_graph emptyGraph es rs f = .ok gA) :
    (∀ n ∈ gA.nodes, n.1 ∈ batchIds es rs) ∧
    (∀ e ∈ gA.edges, e.1.1 ∈ batchIds es rs) := by
  obtain ⟨g1, he, hr⟩ := add_to_graph_split h
  constructor
  · intro n hn
    have hid : n.1 ∈ gA.nodes.map Prod.fst := List.mem_map.mpr ⟨n, hn, rfl⟩
    rcases addRels_scope_nodes hr n.1 hid with h1 | ⟨r, hrm, h1 | h1⟩
    · rcases addEntities_scope he n.1 h1 with h2 | ⟨e, hem, h2⟩
      · simp [emptyGraph] at h2
      · rw [h2]
        exact mem_batch_ent hem
    · rw [h1]
      exact mem_batch_src hrm
    · rw [h1]
      exact mem_batch_tgt hrm
  · intro e hemem
    have ha : e.1.1 ∈ gA.edges.map (fun x => x.1.1) := List.mem_map.mpr ⟨e, hemem, rfl⟩
    rcases addRels_scope_edges hr e.1.1 ha with h1 | ⟨r, hrm, h1⟩
    · rw [addEntities_edges he] at h1
      simp [emptyGraph] at h1
    · rw [h1]
      exact mem_batch_src hrm

theorem find?_nodes_comm {l1 l2 : List (String × Props)} {id : String}
    (hdisj : ∀ n1 ∈ l1, ∀ n2 ∈ l2, n1.1 ≠ n2.1) :
    (l1 ++ l2).find? (fun n => n.1 == id) = (l2 ++ l1).find? (fun n => n.1 == id) := by
  rw [List.find?_append, List.find?_append]
  cases h1 : l1.find? (fun n => n.1 == id) with
  | some a =>
    cases h2 : l2.find? (fun n => n.1 == id) with
    | some b =>
      exfalso
      have ha : a.1 = id := by simpa using List.find?_some h1
      have hb : b.1 = id := by simpa using List.find?_some h2
      exact hdisj a (List.mem_of_find?_eq_some h1) b (List.mem_of_find?_eq_some h2)
        (ha.trans hb.symm)
    | none => rfl
  | none =>
    cases h2 : l2.find? (fun n => n.1 == id) with
    | some b => rfl
    | none => rfl

theorem find?_edges_comm {l1 l2 : List ((String × String) × Props)} {s t : String}
    (hdisj : ∀ e1 ∈ l1, ∀ e2 ∈ l2, e1.1.1 ≠ e2.1.1) :
    (l1 ++ l2).find? (fun e => e.1.1 == s && e.1.2 == t) =
      (l2 ++ l1).find? (fun e => e.1.1 == s && e.1.2 == t) := by
  rw [List.find?_append, List.find?_append]
  cases h1 : l1.find? (fun e => e.1.1 == s && e.1.2 == t) with
  | some a =>
    cases h2 : l2.find? (fun e => e.1.1 == s && e.1.2 == t) with
    | some b =>
      exfalso
      have ha : a.1.1 = s := by
        have := List.find?_some h1
        simp only [Bool.and_eq_true, beq_iff_eq] at this
        exact this.1
      have hb : b.1.1 = s := by
        have := List.find?_some h2
        simp only [Bool.and_eq_true, beq_iff_eq] at this
        exact this.1
      exact hdisj a (List.mem_of_find?_eq_some h1) b (List.mem_of_find?_eq_some h2)
        (ha.trans hb.symm)
    | none => rfl
  | none =>
    cases h2 : l2.find? (fun e => e.1.1 == s && e.1.2 == t) with
    | some b => rfl
    | none => rfl

/-- C9: merging two batches that touch disjoint identifier sets into the
empty graph commutes — both orders yield the same node lookup, edge
lookup, node count and edge count. -/
theorem C9_commutative
    (esA : List Entity) (rsA : List Rel) (fA : String)
    (esB : List Entity) (rsB : List Rel) (fB : String)
    {gA gB gAB gBA : Graph}
    (hA : add_to_graph emptyGraph esA rsA fA = .ok gA)
    (hAB : add_to_graph gA esB rsB fB = .ok gAB)
    (hB : add_to_graph emptyGraph esB rsB fB = .ok gB)
    (hBA : add_to_graph gB esA rsA fA = .ok gBA)
    (hdisj : ∀ x ∈ batchIds esA rsA, x ∉ batchIds esB rsB) :
    (∀ id, getNodeProps gAB id = getNodeProps gBA id) ∧
    (∀ s t, getEdgeProps gAB s t = getEdgeProps gBA s t) ∧
    gAB.nodes.length = gBA.nodes.length ∧
    gAB.edges.length = gBA.edges.length := by
  have scopeA := add_to_graph_scope hA
  have scopeB := add_to_graph_scope hB
  have hABeq : gAB = gappend gA gB := by
    have hsim := @add_to_graph_sim gA emptyGraph esB rsB fB
      (fun n hn x hx => fun heq => hdisj x (heq ▸ scopeA.1 n hn) hx)
      (fun e he x hx => fun heq => hdisj x (heq ▸ scopeA.2 e he) hx)
    rw [gappend_empty] at hsim
    rw [hsim, hB] at hAB
    injection hAB with h
    exact h.symm
  have hBAeq : gBA = gappend gB gA := by
    have hsim := @add_to_graph_sim gB emptyGraph esA rsA fA
      (fun n hn x hx => fun heq => hdisj x hx (heq ▸ scopeB.1 n hn))
      (fun e he x hx => fun heq => hdisj x hx (heq ▸ scopeB.2 e he))
    rw [gappend_empty] at hsim
    rw [hsim, hA] at hBA
    injection hBA with h
    exact h.symm
  subst hABeq
  subst hBAeq
  have hnodes_disj : ∀ n1 ∈ gA.nodes, ∀ n2 ∈ gB.nodes, n1.1 ≠ n2.1 :=
    fun n1 h1 n2 h2 heq => hdisj n1.1 (scopeA.1 n1 h1) (heq ▸ scopeB.1 n2 h2)
  have hedges_disj : ∀ e1 ∈ gA.edges, ∀ e2 ∈ gB.edges, e1.1.1 ≠ e2.1.1 :=
    fun e1 h1 e2 h2 heq => hdisj e1.1.1 (scopeA.2 e1 h1) (heq ▸ scopeB.2 e2 h2)
  refine ⟨?_, ?_, ?_, ?_⟩
  · intro id
    show ((gA.nodes ++ gB.nodes).find? (fun n => n.1 == id)).map (·.2) =
      ((gB.nodes ++ gA.nodes).find? (fun n => n.1 == id)).map (·.2)
    rw [find?_nodes_comm hnodes_disj]
  · intro s t
    show ((gA.edges ++ gB.edges).find? (fun e => e.1.1 == s && e.1.2 == t)).map (·.2) =
      ((gB.edges ++ gA.edges).find? (fun e => e.1.1 == s && e.1.2 == t)).map (·.2)
    rw [find?_edges_comm hedges_disj]
  · show (gA.nodes ++ gB.nodes).length = (gB.nodes ++ gA.nodes).length
    rw [List.length_append, List.length_append, Nat.add_comm]
  · show (gA.edges ++ gB.edges).length = (gB.edges ++ gA.edges).length
    rw [List.length_append, List.length_append, Nat.add_comm]

/-- Concrete instances for the commutativity witness. -/
def entA : Entity := ⟨"a1", some "Crime", some "A1", [("p", .str "v")]⟩

def relA : Rel := ⟨"a1", "a2", some "REQUIRES", []⟩

def entB : Entity := ⟨"b1", some "Concept", some "B1", []⟩

def relB : Rel := ⟨"b1", "b2", some "LACKS", []⟩

def gAc : Graph :=
  ⟨[("a1", nodeCreate entA "fa"), ("a2", [])], [(("a1", "a2"), newEdgeProps relA "fa")]⟩

def gBc : Graph :=
  ⟨[("b1", nodeCreate entB "fb"), ("b2", [])], [(("b1", "b2"), newEdgeProps relB "fb")]⟩

/-- Witness for C9 at a concrete pair of disjoint batches. -/
theorem C9_commutative_witness :
    getNodeProps (gappend gAc gBc) "a1" = getNodeProps (gappend gBc gAc) "a1" ∧
    getEdgeProps (gappend gAc gBc) "b1" "b2" = getEdgeProps (gappend gBc gAc) "b1" "b2" ∧
    (gappend gAc gBc).nodes.length = (gappend gBc gAc).nodes.length ∧
    (gappend gAc gBc).edges.length = (gappend gBc gAc).edges.length := by
  have h := @C9_commutative [entA] [relA] "fa" [entB] [relB] "fb"
    gAc gBc (gappend gAc gBc) (gappend gBc gAc)
    (by rfl) (by rfl) (by rfl) (by rfl) (by decide)
  exact ⟨h.1 "a1", h.2.1 "b1" "b2", h.2.2.1, h.2.2.2⟩

/-! ## C1 — merge idempotence: per-key merge algebra -/

/-- The per-key effect of the first-write-wins property copy: write only
when the slot is absent or holds a falsy value. -/
def mergeVal (cur : Option PVal) (v : PVal) : Option PVal :=
  match cur with
  | none => some v
  | some c => if c.isFalsy then some v else some c

def mergeFold (cur : Option PVal) (vs : List PVal) : Option PVal :=
  vs.foldl mergeVal cur

/-- One step of the property-copy loop (the fold body of
`mergeEntityProps`). -/
def mergeStep (acc : Props) (kv : String × PVal) : Props :=
  match getP acc kv.1 with
  | none => setP acc kv.1 kv.2
  | some v => if v.isFalsy then setP acc kv.1 kv.2 else acc

theorem mergeEntityProps_cons (P : Props) (kv : String × PVal) (rest : Props) :
    mergeEntityProps P (kv :: rest) = mergeEntityProps (mergeStep P kv) rest := rfl

theorem mergeFold_cons (cur : Option PVal) (v : PVal) (vs : List PVal) :
    mergeFold cur (v :: vs) = mergeFold (mergeVal cur v) vs := rfl

def isTruthy (s : Option PVal) : Bool :=
  match s with
  | some c => !c.isFalsy
  | none => false

theorem mergeVal_truthy {s : Option PVal} (h : isTruthy s = true) (v : PVal) :
    mergeVal s v = s := by
  cases s with
  | none => simp [isTruthy] at h
  | some c =>
    have hf : c.isFalsy = false := by simpa [isTruthy] using h
    show (if c.isFalsy = true then some v else some c) = some c
    rw [if_neg (by simp [hf])]

theorem mergeFold_truthy {s : Option PVal} (h : isTruthy s = true) (vs : List PVal) :
    mergeFold s vs = s := by
  induction vs with
  | nil => rfl
  | cons v rest ih =>
    unfold mergeFold at *
    rw [List.foldl_cons, mergeVal_truthy h]
    exact ih

theorem mergeVal_not_truthy {s : Option PVal} (h : isTruthy s = false) (v : PVal) :
    mergeVal s v = some v := by
  cases s with
  | none => rfl
  | some c =>
    have hf : c.isFalsy = true := by simpa [isTruthy] using h
    show (if c.isFalsy = true then some v else some c) = some v
    rw [if_pos hf]

/-- Replaying the same first-write-wins value sequence is a no-op. -/
theorem mergeFold_idem {vs : List PVal} :
    ∀ {s0 s1 : Option PVal}, mergeFold s0 vs = s1 → mergeFold s1 vs = s1 := by
  induction vs with
  | nil =>
    intro s0 s1 h
    exact h ▸ h
  | cons v rest ih =>
    intro s0 s1 h
    by_cases h0 : isTruthy s0 = true
    · rw [mergeFold_truthy h0] at h
      subst h
      exact mergeFold_truthy h0 _
    · have h0f : isTruthy s0 = false := by
        cases hx : isTruthy s0
        · rfl
        · exact absurd hx h0
      unfold mergeFold at h
      rw [List.foldl_cons, mergeVal_not_truthy h0f] at h
      by_cases h1 : isTruthy s1 = true
      · exact mergeFold_truthy h1 _
      · have h1f : isTruthy s1 = false := by
          cases hx : isTruthy s1
          · rfl
          · exact absurd hx h1
        unfold mergeFold
        rw [List.foldl_cons, mergeVal_not_truthy h1f]
        exact h

/-- The values an entity supplies for one key, in order. -/
def valsOfEnt (k : String) (e : Entity) : List PVal :=
  (e.properties.filter (fun kv => kv.1 == k)).map (fun kv => kv.2)

/-- The values a batch supplies for one node id and key, in order. -/
def valsFor (n k : String) (es : List Entity) : List PVal :=
  (es.filter (fun e => e.id == n)).flatMap (valsOfEnt k)

/-- The property-copy loop, viewed one key at a time. -/
theorem mergeEntityProps_getP (P : Props) (ep : Props) (k : String) :
    getP (mergeEntityProps P ep) k =
      mergeFold (getP P k) ((ep.filter (fun kv => kv.1 == k)).map (fun kv => kv.2)) := by
  induction ep generalizing P with
  | nil => rfl
  | cons kv rest ih =>
    obtain ⟨k1, v1⟩ := kv
    rw [mergeEntityProps_cons, ih]
    by_cases hk : k1 = k
    · subst hk
      rw [show ((k1, v1) :: rest).filter (fun kv => kv.1 == k1) =
          (k1, v1) :: rest.filter (fun kv => kv.1 == k1) from by
            rw [List.filter_cons, if_pos (by simp)]]
      rw [List.map_cons, mergeFold_cons]
      congr 1
      show getP (mergeStep P (k1, v1)) k1 = mergeVal (getP P k1) v1
      unfold mergeStep mergeVal
      cases hg : getP P k1 with
      | none =>
        dsimp only
        rw [getP_setP_self]
      | some c =>
        dsimp only
        by_cases hf : c.isFalsy = true
        · rw [if_pos hf, if_pos hf, getP_setP_self]
        · rw [if_neg hf, if_neg hf, hg]
    · rw [show ((k1, v1) :: rest).filter (fun kv => kv.1 == k) =
          rest.filter (fun kv => kv.1 == k) from by
            rw [List.filter_cons, if_neg (by simp [hk])]]
      congr 1
      show getP (mergeStep P (k1, v1)) k = getP P k
      unfold mergeStep
      cases hg : getP P k1 with
      | none =>
        dsimp only
        exact getP_setP_ne P _ hk
      | some c =>
        dsimp only
        by_cases hf : c.isFalsy = true
        · rw [if_pos hf]
          exact getP_setP_ne P _ hk
        · rw [if_neg hf]

theorem mem_setAdd (l : List String) (x : String) : x ∈ setAdd l x := by
  unfold setAdd
  by_cases h : l.contains x = true
  · rw [if_pos h]
    simpa using h
  · rw [if_neg h]
    exact List.mem_append_right l (by simp)

theorem setAdd_of_mem {l : List String} {x : String} (h : x ∈ l) : setAdd l x = l := by
  unfold setAdd
  rw [if_pos (by simpa using h)]

theorem sfAdded_frame {P P2 : Props} {f : String} (h : sfAdded P f = .ok P2) {k : String}
    (hk : k ≠ "source_files") : getP P2 k = getP P k := by
  unfold sfAdded at h
  split at h
  · cases h
    exact getP_setP_ne P _ (Ne.symm hk)
  · cases h
    exact getP_setP_ne P _ (Ne.symm hk)
  · cases h

theorem sfAdded_shape {P P2 : Props} {f : String} (h : sfAdded P f = .ok P2) :
    ∃ l, getP P2 "source_files" = some (.strSet l) ∧ f ∈ l := by
  unfold sfAdded at h
  split at h
  · cases h
    exact ⟨_, getP_setP_self _ _ _, mem_setAdd _ f⟩
  · cases h
    exact ⟨_, getP_setP_self _ _ _, mem_setAdd _ f⟩
  · cases h

theorem sfAdded_preserve {P P2 : Props} {f : String} {l : List String}
    (hP : getP P "source_files" = some (.strSet l)) (hf : f ∈ l)
    (h : sfAdded P f = .ok P2) :
    getP P2 "source_files" = getP P "source_files" := by
  unfold sfAdded at h
  rw [hP] at h
  simp only [Option.getD_some] at h
  cases h
  rw [getP_setP_self, setAdd_of_mem hf, hP]

theorem mergeFold_append (cur : Option PVal) (a b : List PVal) :
    mergeFold cur (a ++ b) = mergeFold (mergeFold cur a) b := by
  unfold mergeFold
  rw [List.foldl_append]

/-- In a duplicate-free dict, folding the key's occurrences from an empty
slot recovers exactly the dict lookup. -/
theorem getP_eq_mergeFold_nodup {ep : Props} (hnd : (ep.map Prod.fst).Nodup) (k : String) :
    mergeFold none ((ep.filter (fun kv => kv.1 == k)).map (fun kv => kv.2)) = getP ep k := by
  induction ep with
  | nil => rfl
  | cons kv rest ih =>
    obtain ⟨k1, v1⟩ := kv
    rw [List.map_cons] at hnd
    have hnd2 := List.nodup_cons.mp hnd
    by_cases hk : k1 = k
    · subst hk
      rw [List.filter_cons, if_pos (by simp)]
      have hrest : rest.filter (fun kv => kv.1 == k1) = [] := by
        rw [List.filter_eq_nil_iff]
        intro a ha
        have hm : a.1 ∈ rest.map Prod.fst := List.mem_map_of_mem Prod.fst ha
        intro hc
        have heq : a.1 = k1 := beq_iff_eq.mp hc
        exact hnd2.1 (heq ▸ hm)
      rw [hrest, getP_cons_self rfl]
      rfl
    · rw [List.filter_cons, if_neg (by simp [hk]), getP_cons_ne hk]
      exact ih hnd2.2

theorem find?_setNodeList_self {ns : List (String × Props)} {id : String} (p : Props)
    (h : (ns.find? (fun n => n.1 == id)).isSome) :
    (setNodeList ns id p).find? (fun n => n.1 == id) = some (id, p) := by
  induction ns with
  | nil => simp at h
  | cons n rest ih =>
    rw [List.find?_cons] at h
    rw [setNodeList]
    cases he : (n.1 == id) with
    | true =>
      rw [if_pos rfl, List.find?_cons]
      have hkey : (((id, p) : String × Props).1 == id) = true := by simp
      rw [hkey]
    | false =>
      rw [if_neg Bool.false_ne_true, List.find?_cons, he]
      rw [he] at h
      exact ih h

theorem getNodeProps_setNode_self {g : Graph} {id : String} {P : Props} (p : Props)
    (h : getNodeProps g id = some P) :
    getNodeProps (setNodeProps g id p) id = some p := by
  have hsome : (g.nodes.find? (fun n => n.1 == id)).isSome := by
    unfold getNodeProps at h
    cases hf : g.nodes.find? (fun n => n.1 == id) with
    | none => rw [hf] at h; cases h
    | some e => rfl
  show ((setNodeList g.nodes id p).find? (fun n => n.1 == id)).map (·.2) = _
  rw [find?_setNodeList_self p hsome]
  rfl

theorem any_map_fst {α β : Type} (l : List (α × β)) (p : α → Bool) :
    (l.map Prod.fst).any p = l.any (fun x => p x.1) := by
  induction l with
  | nil => rfl
  | cons x rest ih => rw [List.map_cons, List.any_cons, List.any_cons, ih]

theorem hasNode_eq_keys (g : Graph) (x : String) :
    hasNode g x = (g.nodes.map Prod.fst).any (fun a => a == x) := by
  unfold hasNode
  rw [any_map_fst]

theorem hasEdge_eq_keys (g : Graph) (s t : String) :
    hasEdge g s t = (g.edges.map Prod.fst).any (fun p => p.1 == s && p.2 == t) := by
  unfold hasEdge
  rw [any_map_fst]

theorem hasNode_congr_keys {g g' : Graph}
    (h : g'.nodes.map Prod.fst = g.nodes.map Prod.fst) (x : String) :
    hasNode g' x = hasNode g x := by
  rw [hasNode_eq_keys, hasNode_eq_keys, h]

theorem hasEdge_congr_keys {g g' : Graph}
    (h : g'.edges.map Prod.fst = g.edges.map Prod.fst) (s t : String) :
    hasEdge g' s t = hasEdge g s t := by
  rw [hasEdge_eq_keys, hasEdge_eq_keys, h]

theorem edgeProp_congr {g g' : Graph} (h : g'.edges = g.edges) (s t k : String) :
    edgeProp g' s t k = edgeProp g s t k := by
  unfold edgeProp
  rw [getEdgeProps_congr h]

theorem nodeProp_eq_of_getNodeProps {g g' : Graph} {n : String}
    (h : getNodeProps g' n = getNodeProps g n) (k : String) :
    nodeProp g' n k = nodeProp g n k := by
  unfold nodeProp
  rw [h]

theorem nodeProp_congr_nodes {g g' : Graph} (h : g'.nodes = g.nodes) (n k : String) :
    nodeProp g' n k = nodeProp g n k := by
  unfold nodeProp
  rw [getNodeProps_congr h]

theorem hasNode_of_nodeProp {g : Graph} {n k : String} {v : PVal}
    (h : nodeProp g n k = some v) : hasNode g n = true := by
  rw [hasNode_eq_isSome]
  unfold nodeProp at h
  cases hg : getNodeProps g n with
  | none => rw [hg] at h; cases h
  | some p => rfl

theorem addEntity_own_node {g : Graph} {e : Entity} {f : String} {g' : Graph}
    (h : addEntity g e f = .ok g') (hid : e.id ≠ "") : hasNode g' e.id = true := by
  rcases addEntity_cases h with ⟨hz, rfl⟩ | ⟨_, props, p1, hnp, hu, rfl⟩ | ⟨_, hnone, rfl⟩
  · exact absurd hz hid
  · rw [hasNode_eq_isSome, getNodeProps_setNode_self p1 hnp]
    rfl
  · rw [hasNode_eq_isSome, getNodeProps_addNode_self _ hnone]
    rfl

theorem addEntity_hasNode_mono {g : Graph} {e : Entity} {f : String} {g' : Graph} {x : String}
    (h : addEntity g e f = .ok g') (hx : hasNode g x = true) : hasNode g' x = true := by
  rcases addEntity_cases h with ⟨_, rfl⟩ | ⟨_, props, p1, hnp, hu, rfl⟩ | ⟨_, hnone, rfl⟩
  · exact hx
  · rw [hasNode_congr_keys (map_fst_setNodeList g.nodes e.id p1) x]
    exact hx
  · unfold hasNode addNode at *
    rw [List.any_append, hx]
    rfl

theorem addEntities_hasNode_mono {es : List Entity} {g : Graph} {f : String} {g' : Graph}
    {x : String} (h : addEntities g es f = .ok g') (hx : hasNode g x = true) :
    hasNode g' x = true := by
  induction es generalizing g with
  | nil => cases h; exact hx
  | cons e rest ih =>
    rw [addEntities] at h
    cases he : addEntity g e f with
    | error msg => rw [he] at h; cases h
    | ok g1 =>
      rw [he] at h
      exact ih h (addEntity_hasNode_mono he hx)

/-- After the entity phase, every entity with a truthy id has a node. -/
theorem addEntities_all_nodes {es : List Entity} {g : Graph} {f : String} {g' : Graph}
    (h : addEntities g es f = .ok g') :
    ∀ e ∈ es, e.id ≠ "" → hasNode g' e.id = true := by
  induction es generalizing g with
  | nil => intro e he; cases he
  | cons e0 rest ih =>
    intro e he hid
    rw [addEntities] at h
    cases he0 : addEntity g e0 f with
    | error msg => rw [he0] at h; cases h
    | ok g1 =>
      rw [he0] at h
      rcases List.mem_cons.mp he with rfl | hmem
      · exact addEntities_hasNode_mono h (addEntity_own_node he0 hid)
      · exact ih h e hmem hid

/-- When every merged entity's node already exists, the entity phase
preserves the node key list (no node is created). -/
theorem addEntities_nodes_keys {es : List Entity} {g : Graph} {f : String} {g' : Graph}
    (h : addEntities g es f = .ok g')
    (hex : ∀ e ∈ es, e.id ≠ "" → hasNode g e.id = true) :
    g'.nodes.map Prod.fst = g.nodes.map Prod.fst := by
  induction es generalizing g with
  | nil => cases h; rfl
  | cons e rest ih =>
    rw [addEntities] at h
    cases he : addEntity g e f with
    | error msg => rw [he] at h; cases h
    | ok g1 =>
      rw [he] at h
      have hkeys : g1.nodes.map Prod.fst = g.nodes.map Prod.fst := by
        rcases addEntity_cases he with ⟨_, rfl⟩ | ⟨_, props, p1, hnp, hu, rfl⟩ |
            ⟨hid, hnone, rfl⟩
        · rfl
        · exact map_fst_setNodeList g.nodes e.id p1
        · have := hex e (List.mem_cons_self e rest) hid
          rw [hasNode_eq_isSome, hnone] at this
          cases this
      have hex2 : ∀ e2 ∈ rest, e2.id ≠ "" → hasNode g1 e2.id = true := by
        intro e2 h2 hid2
        rw [hasNode_congr_keys hkeys]
        exact hex e2 (List.mem_cons_of_mem e h2) hid2
      exact (ih h hex2).trans hkeys

theorem addEntities_node_frame_empty {es : List Entity} {g : Graph} {f : String} {g' : Graph}
    (h : addEntities g es f = .ok g') :
    getNodeProps g' "" = getNodeProps g "" := by
  induction es generalizing g with
  | nil => cases h; rfl
  | cons e rest ih =>
    rw [addEntities] at h
    cases he : addEntity g e f with
    | error msg => rw [he] at h; cases h
    | ok g1 =>
      rw [he] at h
      refine (ih h).trans ?_
      by_cases hid : e.id = ""
      · rcases addEntity_cases he with ⟨_, rfl⟩ | ⟨hne, _⟩ | ⟨hne, _⟩
        · rfl
        · exact absurd hid hne
        · exact absurd hid hne
      · exact addEntity_node_frame he hid

theorem valsFor_nil (n k : String) : valsFor n k [] = [] := rfl

theorem valsFor_cons_self {e : Entity} {n : String} (h : e.id = n) (k : String)
    (rest : List Entity) :
    valsFor n k (e :: rest) = valsOfEnt k e ++ valsFor n k rest := by
  unfold valsFor
  rw [List.filter_cons, if_pos (by simp [h]), List.flatMap_cons]

theorem valsFor_cons_other {e : Entity} {n : String} (h : e.id ≠ n) (k : String)
    (rest : List Entity) :
    valsFor n k (e :: rest) = valsFor n k rest := by
  unfold valsFor
  rw [List.filter_cons, if_neg (by simp [h])]

theorem exists_id_of_valsFor_ne {n k : String} {es : List Entity}
    (h : valsFor n k es ≠ []) : ∃ e ∈ es, e.id = n := by
  induction es with
  | nil => exact absurd rfl h
  | cons e rest ih =>
    by_cases hid : e.id = n
    · exact ⟨e, List.mem_cons_self e rest, hid⟩
    · rw [valsFor_cons_other hid] at h
      obtain ⟨e2, hm, he2⟩ := ih h
      exact ⟨e2, List.mem_cons_of_mem e hm, he2⟩

theorem valsOfEnt_nil_of_notkey {k : String} {e : Entity}
    (h : ∀ kv ∈ e.properties, kv.1 ≠ k) : valsOfEnt k e = [] := by
  unfold valsOfEnt
  rw [List.filter_eq_nil_iff.mpr (by intro a ha hc; exact h a ha (beq_iff_eq.mp hc))]
  rfl

theorem valsFor_nil_of_notkey {n k : String} {es : List Entity}
    (h : ∀ e ∈ es, ∀ kv ∈ e.properties, kv.1 ≠ k) : valsFor n k es = [] := by
  induction es with
  | nil => rfl
  | cons e rest ih =>
    have hrest := ih (fun e2 h2 => h e2 (List.mem_cons_of_mem e h2))
    by_cases hid : e.id = n
    · rw [valsFor_cons_self hid, hrest,
        valsOfEnt_nil_of_notkey (h e (List.mem_cons_self e rest))]
      rfl
    · rw [valsFor_cons_other hid]
      exact hrest

theorem nodeCreate_getP_other {e : Entity} {f : String} {k : String}
    (hsf : k ≠ "source_files") (het : k ≠ "entity_type") (hen : k ≠ "entity_name") :
    getP (nodeCreate e f) k = getP e.properties k := by
  unfold nodeCreate
  rw [getP_setP_ne _ _ (Ne.symm hen), getP_setP_ne _ _ (Ne.symm het),
    getP_setP_ne _ _ (Ne.symm hsf)]

theorem nodeCreate_getP_sf (e : Entity) (f : String) :
    getP (nodeCreate e f) "source_files" = some (.strSet [f]) := by
  unfold nodeCreate
  rw [getP_setP_ne _ _ (by decide), getP_setP_ne _ _ (by decide), getP_setP_self]

/-- One entity merge, traced on a single non-`source_files` key of its
own node: the resulting slot is the first-write-wins fold of the
entity's values for that key over the previous slot.  When the node is
created rather than updated, the entity's property keys must be
duplicate-free and the key must not be one of the reserved creation
keys. -/
theorem addEntity_trace {g : Graph} {e : Entity} {f : String} {g' : Graph} {n k : String}
    (h : addEntity g e f = .ok g') (hid : e.id = n) (hn : n ≠ "")
    (hk : k ≠ "source_files")
    (hcr : getNodeProps g n = none →
      (e.properties.map Prod.fst).Nodup ∧ k ≠ "entity_type" ∧ k ≠ "entity_name") :
    nodeProp g' n k = mergeFold (nodeProp g n k) (valsOfEnt k e) := by
  subst hid
  rcases addEntity_cases h with ⟨hz, rfl⟩ | ⟨_, props, p1, hnp, hu, rfl⟩ | ⟨_, hnone, rfl⟩
  · exact absurd hz hn
  · unfold nodeProp
    rw [getNodeProps_setNode_self p1 hnp, hnp]
    show getP p1 k = mergeFold (getP props k) (valsOfEnt k e)
    unfold nodeUpd at hu
    rw [sfAdded_frame hu hk, mergeEntityProps_getP]
    rfl
  · unfold nodeProp
    rw [getNodeProps_addNode_self _ hnone, hnone]
    obtain ⟨hnd, het, hen⟩ := hcr hnone
    show getP (nodeCreate e f) k = mergeFold none (valsOfEnt k e)
    rw [nodeCreate_getP_other hk het hen, ← getP_eq_mergeFold_nodup hnd]
    rfl

/-- The whole entity phase, traced on a single non-`source_files` key of
one node. -/
theorem addEntities_trace {es : List Entity} {g : Graph} {f : String} {g' : Graph}
    {n k : String} (h : addEntities g es f = .ok g') (hn : n ≠ "")
    (hk : k ≠ "source_files")
    (hcr : hasNode g n = true ∨
      ∀ e ∈ es, e.id = n →
        (e.properties.map Prod.fst).Nodup ∧ k ≠ "entity_type" ∧ k ≠ "entity_name") :
    nodeProp g' n k = mergeFold (nodeProp g n k) (valsFor n k es) := by
  induction es generalizing g with
  | nil => cases h; rfl
  | cons e rest ih =>
    rw [addEntities] at h
    cases he : addEntity g e f with
    | error msg => rw [he] at h; cases h
    | ok g1 =>
      rw [he] at h
      by_cases hid : e.id = n
      · have hstep : nodeProp g1 n k = mergeFold (nodeProp g n k) (valsOfEnt k e) := by
          refine addEntity_trace he hid hn hk ?_
          intro hnone
          rcases hcr with hcr | hcr
          · rw [hasNode_eq_isSome, hnone] at hcr
            cases hcr
          · exact hcr e (List.mem_cons_self e rest) hid
        have hcr2 : hasNode g1 n = true ∨
            ∀ e2 ∈ rest, e2.id = n →
              (e2.properties.map Prod.fst).Nodup ∧ k ≠ "entity_type" ∧ k ≠ "entity_name" := by
          rcases hcr with hcr | hcr
          · exact Or.inl (addEntity_hasNode_mono he hcr)
          · exact Or.inr (fun e2 h2 => hcr e2 (List.mem_cons_of_mem e h2))
        rw [valsFor_cons_self hid, mergeFold_append, ← hstep]
        exact ih h hcr2
      · have hframe : nodeProp g1 n k = nodeProp g n k :=
          nodeProp_eq_of_getNodeProps (addEntity_node_frame he (fun hc => hid hc)) k
        have hcr2 : hasNode g1 n = true ∨
            ∀ e2 ∈ rest, e2.id = n →
              (e2.properties.map Prod.fst).Nodup ∧ k ≠ "entity_type" ∧ k ≠ "entity_name" := by
          rcases hcr with hcr | hcr
          · exact Or.inl (addEntity_hasNode_mono he hcr)
          · exact Or.inr (fun e2 h2 => hcr e2 (List.mem_cons_of_mem e h2))
        rw [valsFor_cons_other hid, ← hframe]
        exact ih h hcr2

/-- An entity merge leaves its node's `source_files` a set containing
the source file. -/
theorem addEntity_sf_shape {g : Graph} {e : Entity} {f : String} {g' : Graph} {n : String}
    (h : addEntity g e f = .ok g') (hid : e.id = n) (hn : n ≠ "") :
    ∃ l, nodeProp g' n "source_files" = some (.strSet l) ∧ f ∈ l := by
  subst hid
  rcases addEntity_cases h with ⟨hz, rfl⟩ | ⟨_, props, p1, hnp, hu, rfl⟩ | ⟨_, hnone, rfl⟩
  · exact absurd hz hn
  · unfold nodeProp
    rw [getNodeProps_setNode_self p1 hnp]
    unfold nodeUpd at hu
    exact sfAdded_shape hu
  · unfold nodeProp
    rw [getNodeProps_addNode_self _ hnone]
    exact ⟨[f], nodeCreate_getP_sf e f, by simp⟩

/-- Once a node's `source_files` is a set containing the batch's source
file, a further entity merge of the same batch leaves it unchanged. -/
theorem addEntity_sf_keep {g : Graph} {e : Entity} {f : String} {g' : Graph} {n : String}
    {l : List String} (h : addEntity g e f = .ok g')
    (hshape : nodeProp g n "source_files" = some (.strSet l)) (hf : f ∈ l) :
    nodeProp g' n "source_files" = nodeProp g n "source_files" := by
  by_cases hid : e.id = n
  · subst hid
    rcases addEntity_cases h with ⟨_, rfl⟩ | ⟨_, props, p1, hnp, hu, rfl⟩ | ⟨_, hnone, rfl⟩
    · rfl
    · unfold nodeProp at hshape ⊢
      rw [getNodeProps_setNode_self p1 hnp, hnp]
      rw [hnp] at hshape
      have hP : getP props "source_files" = some (.strSet l) := by simpa using hshape
      unfold nodeUpd at hu
      have hmerge : getP (mergeEntityProps props e.properties) "source_files" =
          some (.strSet l) := by
        rw [mergeEntityProps_getP, hP]
        refine mergeFold_truthy ?_ _
        unfold isTruthy PVal.isFalsy
        have hne : l ≠ [] := by intro hc; subst hc; cases hf
        simp [List.isEmpty_iff, hne]
      show getP p1 "source_files" = getP props "source_files"
      rw [sfAdded_preserve hmerge hf hu, hmerge, hP]
    · unfold nodeProp at hshape
      rw [hnone] at hshape
      cases hshape
  · exact nodeProp_eq_of_getNodeProps (addEntity_node_frame h hid) _

/-- The whole entity phase preserves an established
`source_files`-contains-the-file slot exactly. -/
theorem addEntities_sf_keep {es : List Entity} {g : Graph} {f : String} {g' : Graph}
    {n : String} {l : List String} (h : addEntities g es f = .ok g')
    (hshape : nodeProp g n "source_files" = some (.strSet l)) (hf : f ∈ l) :
    nodeProp g' n "source_files" = nodeProp g n "source_files" := by
  induction es generalizing g with
  | nil => cases h; rfl
  | cons e rest ih =>
    rw [addEntities] at h
    cases he : addEntity g e f with
    | error msg => rw [he] at h; cases h
    | ok g1 =>
      rw [he] at h
      have hstep := addEntity_sf_keep he hshape hf
      have hshape1 : nodeProp g1 n "source_files" = some (.strSet l) :=
        hstep.trans hshape
      exact (ih h hshape1).trans hstep

/-- After the entity phase, every node named by some entity of the batch
carries a `source_files` set containing the batch's source file. -/
theorem addEntities_sf_touch {es : List Entity} {g : Graph} {f : String} {g' : Graph}
    {n : String} (h : addEntities g es f = .ok g') (hn : n ≠ "")
    (htouch : ∃ e ∈ es, e.id = n) :
    ∃ l, nodeProp g' n "source_files" = some (.strSet l) ∧ f ∈ l := by
  induction es generalizing g with
  | nil =>
    obtain ⟨e, hm, _⟩ := htouch
    cases hm
  | cons e rest ih =>
    rw [addEntities] at h
    cases he : addEntity g e f with
    | error msg => rw [he] at h; cases h
    | ok g1 =>
      rw [he] at h
      by_cases hid : e.id = n
      · obtain ⟨l, hl, hfl⟩ := addEntity_sf_shape he hid hn
        exact ⟨l, (addEntities_sf_keep h hl hfl).trans hl, hfl⟩
      · rcases htouch with ⟨e2, hm, he2⟩
        rcases List.mem_cons.mp hm with rfl | hm2
        · exact absurd he2 hid
        · exact ih h ⟨e2, hm2, he2⟩

theorem map_fst_setEdgeList (es : List ((String × String) × Props)) (s t : String)
    (p : Props) :
    (setEdgeList es s t p).map Prod.fst = es.map Prod.fst := by
  induction es with
  | nil => rfl
  | cons e rest ih =>
    rw [setEdgeList]
    cases he : (e.1.1 == s && e.1.2 == t) with
    | true =>
      rw [if_pos rfl]
      have hp : e.1 = (s, t) := by
        simp only [Bool.and_eq_true, beq_iff_eq] at he
        exact Prod.ext he.1 he.2
      simp [hp]
    | false =>
      rw [if_neg Bool.false_ne_true]
      simp [ih]

theorem ensureNode_nodeProp_keep {g : Graph} {id x : String} (hx : hasNode g x = true) :
    getNodeProps (ensureNode g id) x = getNodeProps g x := by
  unfold ensureNode
  split
  · rfl
  · rename_i hmiss
    refine getNodeProps_addNode_ne _ ?_
    intro hc
    subst hc
    exact hmiss hx

/-- The relationship phase never rewrites the attributes of an existing
node. -/
theorem addRel_nodeProp_keep {g : Graph} {r : Rel} {f : String} {g' : Graph} {x : String}
    (h : addRel g r f = .ok g') (hx : hasNode g x = true) :
    getNodeProps g' x = getNodeProps g x := by
  rcases addRel_cases h with ⟨_, rfl⟩ | ⟨_, _, P, V, hP, _, rfl⟩ | ⟨_, _, _, rfl⟩
  · rfl
  · exact getNodeProps_congr (setEdgeProps_nodes g r.source r.target _) x
  · rw [getNodeProps_congr (nxAddEdge_nodes g r.source r.target _) x]
    rw [ensureNode_nodeProp_keep (hasNode_ensure_mono r.source hx)]
    exact ensureNode_nodeProp_keep hx

theorem addRels_nodeProp_keep {rs : List Rel} {g : Graph} {f : String} {g' : Graph}
    {x : String} (h : addRels g rs f = .ok g') (hx : hasNode g x = true) :
    getNodeProps g' x = getNodeProps g x := by
  induction rs generalizing g with
  | nil => cases h; rfl
  | cons r rest ih =>
    rw [addRels] at h
    cases hr : addRel g r f with
    | error msg => rw [hr] at h; cases h
    | ok g1 =>
      rw [hr] at h
      exact (ih h (addRel_hasNode_mono hr hx)).trans (addRel_nodeProp_keep hr hx)

/-- After the relationship phase, every relationship with truthy
endpoints has its edge. -/
theorem addRels_all_edges {rs : List Rel} {g : Graph} {f : String} {g' : Graph}
    (h : addRels g rs f = .ok g') :
    ∀ r ∈ rs, r.source ≠ "" → r.target ≠ "" → hasEdge g' r.source r.target = true := by
  induction rs generalizing g with
  | nil => intro r hr; cases hr
  | cons r0 rest ih =>
    intro r hr hs ht
    rw [addRels] at h
    cases hr0 : addRel g r0 f with
    | error msg => rw [hr0] at h; cases h
    | ok g1 =>
      rw [hr0] at h
      rcases List.mem_cons.mp hr with rfl | hmem
      · exact addRels_hasEdge_mono h (addRel_own_edge hr0 hs ht)
      · exact ih h r hmem hs ht

/-- A relationship merge whose edge already exists takes the update
branch: nodes unchanged, edge keys unchanged, and every edge property
other than `relationship_types` unchanged. -/
theorem addRel_update_only {g : Graph} {r : Rel} {f : String} {g' : Graph}
    (h : addRel g r f = .ok g')
    (hedge : r.source ≠ "" → r.target ≠ "" → hasEdge g r.source r.target = true) :
    g'.nodes = g.nodes ∧ g'.edges.map Prod.fst = g.edges.map Prod.fst ∧
    ∀ s t k, k ≠ "relationship_types" → edgeProp g' s t k = edgeProp g s t k := by
  rcases addRel_cases h with ⟨_, rfl⟩ | ⟨hs, ht, P, V, hP, hrt, rfl⟩ | ⟨hs, ht, hmiss, rfl⟩
  · exact ⟨rfl, rfl, fun s t k _ => rfl⟩
  · refine ⟨setEdgeProps_nodes g r.source r.target _,
      map_fst_setEdgeList g.edges r.source r.target _, ?_⟩
    intro s t k hk
    by_cases hpair : r.source = s ∧ r.target = t
    · obtain ⟨rfl, rfl⟩ := hpair
      unfold edgeProp
      rw [getEdgeProps_setEdge_self _ hP, hP]
      show getP (setP P "relationship_types" V) k = getP P k
      exact getP_setP_ne P V (Ne.symm hk)
    · unfold edgeProp
      rw [getEdgeProps_setEdge_ne g _ hpair]
  · rw [hasEdge_eq_isSome, hmiss] at hedge
    cases hedge hs ht

theorem addRels_update_only {rs : List Rel} {g : Graph} {f : String} {g' : Graph}
    (h : addRels g rs f = .ok g')
    (hedges : ∀ r ∈ rs, r.source ≠ "" → r.target ≠ "" →
      hasEdge g r.source r.target = true) :
    g'.nodes = g.nodes ∧ g'.edges.map Prod.fst = g.edges.map Prod.fst ∧
    ∀ s t k, k ≠ "relationship_types" → edgeProp g' s t k = edgeProp g s t k := by
  induction rs generalizing g with
  | nil => cases h; exact ⟨rfl, rfl, fun s t k _ => rfl⟩
  | cons r rest ih =>
    rw [addRels] at h
    cases hr : addRel g r f with
    | error msg => rw [hr] at h; cases h
    | ok g1 =>
      rw [hr] at h
      obtain ⟨hn1, hk1, hp1⟩ :=
        addRel_update_only hr (hedges r (List.mem_cons_self r rest))
      have hedges2 : ∀ r2 ∈ rest, r2.source ≠ "" → r2.target ≠ "" →
          hasEdge g1 r2.source r2.target = true := by
        intro r2 h2 hs ht
        rw [hasEdge_congr_keys hk1]
        exact hedges r2 (List.mem_cons_of_mem r h2) hs ht
      obtain ⟨hn2, hk2, hp2⟩ := ih h hedges2
      exact ⟨hn2.trans hn1, hk2.trans hk1,
        fun s t k hk => (hp2 s t k hk).trans (hp1 s t k hk)⟩

/-- C1: merging the same batch twice is idempotent up to the edge key
`relationship_types` (which `C1_cex` shows does change on the second
merge: a new edge gets no `relationship_types`, the repeated merge adds
it).  Under the Python-dict well-formedness hypotheses that each
entity's property keys are duplicate-free and never the reserved
creation keys `entity_type`/`entity_name`, the second merge preserves
the node count, node key list, every node property (including the
`source_files` sets), the edge count, the edge key list, and every edge
property other than `relationship_types`. -/
theorem C1_amended {g : Graph} {es : List Entity} {rs : List Rel} {f : String}
    {g1 g2 : Graph}
    (h1 : add_to_graph g es rs f = .ok g1)
    (h2 : add_to_graph g1 es rs f = .ok g2)
    (hnodup : ∀ e ∈ es, (e.properties.map Prod.fst).Nodup)
    (hres : ∀ e ∈ es, ∀ kv ∈ e.properties, kv.1 ≠ "entity_type" ∧ kv.1 ≠ "entity_name") :
    g2.nodes.length = g1.nodes.length ∧
    g2.nodes.map Prod.fst = g1.nodes.map Prod.fst ∧
    (∀ n k, nodeProp g2 n k = nodeProp g1 n k) ∧
    g2.edges.length = g1.edges.length ∧
    g2.edges.map Prod.fst = g1.edges.map Prod.fst ∧
    (∀ s t k, k ≠ "relationship_types" → edgeProp g2 s t k = edgeProp g1 s t k) := by
  obtain ⟨gE, hE, hR⟩ := add_to_graph_split h1
  obtain ⟨g1e, hE2, hR2⟩ := add_to_graph_split h2
  have hnodes1 : ∀ e ∈ es, e.id ≠ "" → hasNode g1 e.id = true :=
    fun e he hid => addRels_hasNode_mono hR (addEntities_all_nodes hE e he hid)
  have hE2edges : g1e.edges = g1.edges := addEntities_edges hE2
  have hedges1e : ∀ r ∈ rs, r.source ≠ "" → r.target ≠ "" →
      hasEdge g1e r.source r.target = true := by
    intro r hr hs ht
    have hsame : hasEdge g1e r.source r.target = hasEdge g1 r.source r.target := by
      unfold hasEdge
      rw [hE2edges]
    rw [hsame]
    exact addRels_all_edges hR r hr hs ht
  obtain ⟨hRnodes, hRkeys, hRprops⟩ := addRels_update_only hR2 hedges1e
  have hkeysE2 : g1e.nodes.map Prod.fst = g1.nodes.map Prod.fst :=
    addEntities_nodes_keys hE2 hnodes1
  have hnodekeys : g2.nodes.map Prod.fst = g1.nodes.map Prod.fst := by
    rw [hRnodes]
    exact hkeysE2
  have hedgekeys : g2.edges.map Prod.fst = g1.edges.map Prod.fst := by
    rw [hRkeys, hE2edges]
  refine ⟨?_, hnodekeys, ?_, ?_, hedgekeys, ?_⟩
  · have := congrArg List.length hnodekeys
    rwa [List.length_map, List.length_map] at this
  · intro n k
    rw [nodeProp_congr_nodes hRnodes n k]
    by_cases hn : n = ""
    · subst hn
      exact nodeProp_eq_of_getNodeProps (addEntities_node_frame_empty hE2) k
    · by_cases hksf : k = "source_files"
      · subst hksf
        by_cases htouch : ∃ e ∈ es, e.id = n
        · obtain ⟨l, hl, hfl⟩ := addEntities_sf_touch hE hn htouch
          have hhas : hasNode gE n = true := hasNode_of_nodeProp hl
          have hl1 : nodeProp g1 n "source_files" = some (.strSet l) := by
            rw [nodeProp_eq_of_getNodeProps (addRels_nodeProp_keep hR hhas)]
            exact hl
          exact addEntities_sf_keep hE2 hl1 hfl
        · have hall : ∀ e ∈ es, e.id ≠ n := fun e he hc => htouch ⟨e, he, hc⟩
          exact nodeProp_eq_of_getNodeProps (addEntities_node_frame hE2 hall) _
      · by_cases hv : valsFor n k es = []
        · have hcr : hasNode g1 n = true ∨
              ∀ e ∈ es, e.id = n →
                (e.properties.map Prod.fst).Nodup ∧
                k ≠ "entity_type" ∧ k ≠ "entity_name" := by
            by_cases hex : ∃ e ∈ es, e.id = n
            · obtain ⟨e, he, hid⟩ := hex
              refine Or.inl ?_
              have hid2 : e.id ≠ "" := by rw [hid]; exact hn
              have := hnodes1 e he hid2
              rwa [hid] at this
            · exact Or.inr (fun e he hid => absurd ⟨e, he, hid⟩ hex)
          rw [addEntities_trace hE2 hn hksf hcr, hv]
          rfl
        · obtain ⟨e0, he0, hid0⟩ := exists_id_of_valsFor_ne hv
          have hid0ne : e0.id ≠ "" := by rw [hid0]; exact hn
          have hket : k ≠ "entity_type" := by
            intro hc
            subst hc
            exact hv (valsFor_nil_of_notkey (fun e he kv hkv => (hres e he kv hkv).1))
          have hken : k ≠ "entity_name" := by
            intro hc
            subst hc
            exact hv (valsFor_nil_of_notkey (fun e he kv hkv => (hres e he kv hkv).2))
          have htr1 : nodeProp gE n k = mergeFold (nodeProp g n k) (valsFor n k es) :=
            addEntities_trace hE hn hksf
              (Or.inr (fun e he _ => ⟨hnodup e he, hket, hken⟩))
          have hhasE : hasNode gE n = true := by
            have := addEntities_all_nodes hE e0 he0 hid0ne
            rwa [hid0] at this
          have hs1 : mergeFold (nodeProp g n k) (valsFor n k es) = nodeProp g1 n k := by
            rw [nodeProp_eq_of_getNodeProps (addRels_nodeProp_keep hR hhasE)]
            exact htr1.symm
          have htr2 : nodeProp g1e n k =
              mergeFold (nodeProp g1 n k) (valsFor n k es) := by
            refine addEntities_trace hE2 hn hksf (Or.inl ?_)
            have := hnodes1 e0 he0 hid0ne
            rwa [hid0] at this
          rw [htr2]
          exact mergeFold_idem hs1
  · have := congrArg List.length hedgekeys
    rwa [List.length_map, List.length_map] at this
  · intro s t k hk
    exact (hRprops s t k hk).trans (edgeProp_congr hE2edges s t k)

def entC1 : Entity := ⟨"a", some "Crime", some "A", [("p", .str "v")]⟩

def gC1a : Graph :=
  ⟨[("a", [("p", .str "v"), ("source_files", .strSet ["f"]),
      ("entity_type", .str "Crime"), ("entity_name", .str "A")]), ("b", [])],
   [(("a", "b"), [("relationship_type", .str "T"), ("source_files", .strSet ["f"])])]⟩

def gC1b : Graph :=
  ⟨[("a", [("p", .str "v"), ("source_files", .strSet ["f"]),
      ("entity_type", .str "Crime"), ("entity_name", .str "A")]), ("b", [])],
   [(("a", "b"), [("relationship_type", .str "T"), ("source_files", .strSet ["f"]),
      ("relationship_types", .strList ["T"])])]⟩

theorem C1_amended_witness :
    add_to_graph emptyGraph [entC1] [relT] "f" = .ok gC1a ∧
    add_to_graph gC1a [entC1] [relT] "f" = .ok gC1b ∧
    gC1b.nodes.map Prod.fst = gC1a.nodes.map Prod.fst ∧
    nodeProp gC1b "a" "source_files" = nodeProp gC1a "a" "source_files" ∧
    gC1b.edges.length = gC1a.edges.length ∧
    edgeProp gC1b "a" "b" "source_files" = edgeProp gC1a "a" "b" "source_files" := by
  have h := C1_amended (g := emptyGraph) (rfl : add_to_graph emptyGraph [entC1] [relT] "f" = .ok gC1a)
    (rfl : add_to_graph gC1a [entC1] [relT] "f" = .ok gC1b)
    (by decide) (by decide)
  exact ⟨rfl, rfl, h.2.1, h.2.2.1 "a" "source_files", h.2.2.2.1,
    h.2.2.2.2.2 "a" "b" "source_files" (by decide)⟩

end RegRAG
